import Mathlib

/-!
Verification development for the agent-orchestration subsystem of the
excel_analysis repository: the bounded tool-calling loop
(src/llm_client.py), the variable-binding store and placeholder resolver
(src/tools/message_variable_processor.py), the tool registry
(src/tools/tool_registry.py) and the fan-out content pipeline
(src/dialogue_service.py).

Python values that flow through these components (JSON-serialisable data)
are modelled by the inductive type `Value`.  Python `dict`s are modelled as
association lists with Python dict semantics: assignment overwrites the
entry in place if the key exists and appends otherwise; `pop` removes the
entry; `get` returns the stored value.  Machine-level inputs
(wall-clock timestamps, uuid suffixes) are passed in as explicit
parameters, since the source draws them from the environment.
-/

set_option maxHeartbeats 1000000
set_option maxRecDepth 200000

/-- JSON-serialisable Python value: None, bool, int, str, list, dict. -/
inductive Value where
  | null : Value
  | bool : Bool → Value
  | num : Int → Value
  | str : String → Value
  | arr : List Value → Value
  | obj : List (String × Value) → Value

/-- Python dict assignment `d[k] = v`: overwrite in place when the key is
present, append otherwise. -/
def dictSet {α β : Type} [DecidableEq α] (d : List (α × β)) (k : α) (v : β) :
    List (α × β) :=
  if d.any (fun p => decide (p.1 = k)) then
    d.map (fun p => if p.1 = k then (k, v) else p)
  else d ++ [(k, v)]

/-- Python dict `d.pop(k, None)`: remove the entry for `k`. -/
def dictPop {α β : Type} [DecidableEq α] (d : List (α × β)) (k : α) :
    List (α × β) :=
  d.filter (fun p => decide (p.1 ≠ k))

/-- Python dict `d.get(k)`: the value stored under `k`, if any. -/
def dictGet {α β : Type} [DecidableEq α] (d : List (α × β)) (k : α) :
    Option β :=
  (d.find? (fun p => decide (p.1 = k))).map (fun p => p.2)

/-- Keys of an association list, in order. -/
def keysOf {α β : Type} (d : List (α × β)) : List α := d.map Prod.fst

/-- Decimal digits of a natural number, most significant first
(fuel-based so that it computes by kernel reduction; fuel `n + 1`
always suffices). -/
def natDigitsAux : Nat → Nat → List Char → List Char
  | 0, _, acc => acc
  | f + 1, n, acc =>
    let d := Char.ofNat (48 + n % 10)
    if n < 10 then d :: acc else natDigitsAux f (n / 10) (d :: acc)

/-- Decimal representation of a natural number, as Python `str(n)`. -/
def natStr (n : Nat) : String := String.mk (natDigitsAux (n + 1) n [])

/-- Decimal representation of an integer, as Python `str(n)`. -/
def intStr (n : Int) : String :=
  if n < 0 then "-" ++ natStr n.natAbs else natStr n.natAbs

/-- Hex digit char for a value below 16. -/
def hexDigit (n : Nat) : Char := Char.ofNat (if n < 10 then 48 + n else 87 + n)

/-- JSON string escaping as `json.dumps` with `ensure_ascii=False`:
quote, backslash, the short control escapes, and `\u00XX` for the
remaining control characters. -/
def jsonEscapeChar (c : Char) : List Char :=
  if c = '"' then ['\\', '"']
  else if c = '\\' then ['\\', '\\']
  else if c = '\n' then ['\\', 'n']
  else if c = '\r' then ['\\', 'r']
  else if c = '\t' then ['\\', 't']
  else if c = '\x08' then ['\\', 'b']
  else if c = '\x0c' then ['\\', 'f']
  else if c.toNat < 32 then
    ['\\', 'u', '0', '0', hexDigit (c.toNat / 16), hexDigit (c.toNat % 16)]
  else [c]

/-- A JSON string literal for `s`. -/
def jsonQuote (s : String) : String :=
  "\"" ++ String.mk (s.data.flatMap jsonEscapeChar) ++ "\""

mutual

/-- `json.dumps(v, ensure_ascii=False)`; Python default separators are
`", "` and `": "`. -/
def json_dumps : Value → String
  | .null => "null"
  | .bool true => "true"
  | .bool false => "false"
  | .num n => intStr n
  | .str s => jsonQuote s
  | .arr xs => "[" ++ jsonDumpsList xs ++ "]"
  | .obj kvs => "\x7b" ++ jsonDumpsObj kvs ++ "\x7d"

/-- Comma-separated serialisation of the elements of a JSON array. -/
def jsonDumpsList : List Value → String
  | [] => ""
  | [v] => json_dumps v
  | v :: rest => json_dumps v ++ ", " ++ jsonDumpsList rest

/-- Comma-separated serialisation of the entries of a JSON object. -/
def jsonDumpsObj : List (String × Value) → String
  | [] => ""
  | [kv] => jsonQuote kv.1 ++ ": " ++ json_dumps kv.2
  | kv :: rest => jsonQuote kv.1 ++ ": " ++ json_dumps kv.2 ++ ", " ++ jsonDumpsObj rest

end

mutual

/-- Python `repr` of a value (string escaping inside `repr` is elided:
only scalar and shallow shapes are ever interpolated by the code under
study). -/
def py_repr : Value → String
  | .null => "None"
  | .bool true => "True"
  | .bool false => "False"
  | .num n => intStr n
  | .str s => "\x27" ++ s ++ "\x27"
  | .arr xs => "[" ++ pyReprList xs ++ "]"
  | .obj kvs => "\x7b" ++ pyReprObj kvs ++ "\x7d"

/-- Comma-separated `repr` of the elements of a list. -/
def pyReprList : List Value → String
  | [] => ""
  | [v] => py_repr v
  | v :: rest => py_repr v ++ ", " ++ pyReprList rest

/-- Comma-separated `repr` of the entries of a dict. -/
def pyReprObj : List (String × Value) → String
  | [] => ""
  | [kv] => "\x27" ++ kv.1 ++ "\x27: " ++ py_repr kv.2
  | kv :: rest => "\x27" ++ kv.1 ++ "\x27: " ++ py_repr kv.2 ++ ", " ++ pyReprObj rest

end

/-- Python `str(v)`: identity on strings, `repr`-like otherwise. -/
def py_str (v : Value) : String :=
  match v with
  | .str s => s
  | v => py_repr v

/-- Python truthiness of a value. -/
def Value.truthy : Value → Bool
  | .null => false
  | .bool b => b
  | .num n => decide (n ≠ 0)
  | .str s => !s.isEmpty
  | .arr xs => !xs.isEmpty
  | .obj kvs => !kvs.isEmpty

/-- `v.get(k)` on a dict value (`none` when `v` is not a dict). -/
def valueGet (v : Value) (k : String) : Option Value :=
  match v with
  | .obj kvs => dictGet kvs k
  | _ => none

/-- Whether a needle occurs as a contiguous substring of a haystack. -/
def containsSub (hay needle : List Char) : Bool :=
  match hay with
  | [] => needle.isEmpty
  | _ :: t => needle.isPrefixOf hay || containsSub t needle

/-- Python string slice `s[:n]` (by code points). -/
def strTake (s : String) (n : Nat) : String := String.mk (s.data.take n)

/-! ## BindingStore / PlaceholderResolver
(src/tools/message_variable_processor.py, class MessageVariableProcessor) -/

/-- Binding key: `(tool_name, var_name)`. -/
abbrev BKey := String × String

/-- State of a `MessageVariableProcessor`: the binding store `_store`, the
insertion-order list `_order`, the three size limits, and the known-tool
allow-list `_known_tools`. -/
structure MessageVariableProcessor where
  store : List (BKey × Value)
  order : List BKey
  max_store_items : Nat
  preview_max_items : Nat
  preview_max_chars : Nat
  known_tools : List String

/-- `MessageVariableProcessor.__init__` (defaults 50, 50, 2000). -/
def MessageVariableProcessor.init
    (max_store_items preview_max_items preview_max_chars : Nat) :
    MessageVariableProcessor :=
  ⟨[], [], max_store_items, preview_max_items, preview_max_chars, []⟩

/-- `register_known_tool`: record a tool name (a set: no duplicates),
ignoring the empty name. -/
def MessageVariableProcessor.register_known_tool
    (s : MessageVariableProcessor) (tool_name : String) :
    MessageVariableProcessor :=
  if tool_name ≠ "" then
    if s.known_tools.contains tool_name then s
    else { s with known_tools := tool_name :: s.known_tools }
  else s

/-- `_evict_if_necessary`: while the order list is longer than
`max_store_items`, pop its head and remove that key from the store. -/
def evictLoop : List BKey → List (BKey × Value) → Nat →
    List (BKey × Value) × List BKey
  | [], store, _ => (store, [])
  | k :: rest, store, maxItems =>
    if maxItems < rest.length + 1 then evictLoop rest (dictPop store k) maxItems
    else (store, k :: rest)

/-- `register_binding(tool_name, value, var_name=None)`.  When `var_name`
is omitted the source generates `f"[tool]_[millis]_[uuidhex8]"`; the
nondeterministic suffix after the first underscore is the explicit
parameter `fresh`.  Returns the variable name and the updated state. -/
def MessageVariableProcessor.register_binding
    (s : MessageVariableProcessor) (tool_name : String) (value : Value)
    (var_name : Option String) (fresh : String) :
    String × MessageVariableProcessor :=
  let var := match var_name with
    | some v => v
    | none => tool_name ++ "_" ++ fresh
  let key : BKey := (tool_name, var)
  let store1 := dictSet s.store key value
  let order1 := s.order ++ [key]
  let res := evictLoop order1 store1 s.max_store_items
  (var, { s with store := res.1, order := res.2 })

/-- `get_binding(tool_name, var_name)`: `self._store.get((tool, var))`.
Python returns `None` both for an absent key and for a stored `None`;
`Value.null` plays the role of Python `None`. -/
def MessageVariableProcessor.get_binding
    (s : MessageVariableProcessor) (tool_name var_name : String) : Value :=
  (dictGet s.store (tool_name, var_name)).getD Value.null

/-- `_make_preview`: strings cut to `preview_max_chars`, lists to the first
`preview_max_items`, dicts shallow-truncated to 20 entries with list/str
entry values cut likewise; anything else returned as is. -/
def MessageVariableProcessor.make_preview
    (s : MessageVariableProcessor) (value : Value) : Value :=
  match value with
  | .str t => .str (strTake t s.preview_max_chars)
  | .arr xs => .arr (xs.take s.preview_max_items)
  | .obj kvs =>
      .obj ((kvs.take 20).map (fun kv =>
        match kv.2 with
        | .arr l => (kv.1, Value.arr (l.take (min l.length s.preview_max_items)))
        | .str t => (kv.1, Value.str (strTake t s.preview_max_chars))
        | w => (kv.1, w)))
  | w => w

/-- `_size_hint`: a type tag plus item/key/char count. -/
def MessageVariableProcessor.size_hint (value : Value) : Value :=
  match value with
  | .arr xs => .obj [("type", .str "list"), ("items", .num (Int.ofNat xs.length))]
  | .obj kvs => .obj [("type", .str "dict"), ("keys", .num (Int.ofNat kvs.length))]
  | .str t => .obj [("type", .str "string"), ("chars", .num (Int.ofNat t.length))]
  | .null => .obj [("type", .str "NoneType")]
  | .bool _ => .obj [("type", .str "bool")]
  | .num _ => .obj [("type", .str "int")]

/-- The `usage` instruction text embedded in a lightweight payload. -/
def usageText (tool_name var_name : String) : String :=
  "在最终回答中使用 \x7b\"" ++ tool_name ++ "\":\"" ++ var_name ++
    "\"\x7d 引用完整数据；如需进一步计算，请描述需要的聚合/筛选，不要展开原始数据。"

/-- The structured payload dict built by `build_lightweight_tool_payload`
before serialisation (entries in Python dict insertion order). -/
def MessageVariableProcessor.build_lightweight_payload_value
    (s : MessageVariableProcessor) (tool_name var_name : String)
    (original_value : Value) (include_preview : Bool) : Value :=
  .obj [("variable_binding", .obj (
    [("tool", .str tool_name),
     ("name", .str var_name),
     ("usage", .str (usageText tool_name var_name))]
    ++ (if include_preview then [("preview", s.make_preview original_value)] else [])
    ++ [("size_hint", MessageVariableProcessor.size_hint original_value)]))]

/-- `build_lightweight_tool_payload`: the JSON text handed back to the
model in place of the full tool result. -/
def MessageVariableProcessor.build_lightweight_tool_payload
    (s : MessageVariableProcessor) (tool_name var_name : String)
    (original_value : Value) (include_preview : Bool) : String :=
  json_dumps (s.build_lightweight_payload_value tool_name var_name
    original_value include_preview)

/-- `row.get(header, '')` in `_create_html_table` (a non-dict row would
raise `AttributeError` in Python; the caller's `except` then falls back to
plain JSON — here rows are looked up shallowly, with `''` as the default,
which coincides on the dict-shaped rows this formatter receives). -/
def rowGet (row : Value) (header : String) : Value :=
  (valueGet row header).getD (.str "")

/-- Cell rendering of `_create_html_table`: returns
`(cell_value, display_value)` as strings.  `None` renders empty; ints and
floats (Python `bool` included, being an `int` subclass) render via `str`
untruncated; everything else renders via `str` with the display copy cut
to 97 characters plus `"..."` beyond 100. -/
def renderCell (cell : Value) : String × String :=
  match cell with
  | .null => ("", "")
  | .num n => (intStr n, intStr n)
  | .bool b => (py_str (.bool b), py_str (.bool b))
  | v =>
      let s := py_str v
      (s, if 100 < s.length then strTake s 97 ++ "..." else s)

/-- `str(cell_value).replace('"', '&quot;')`. -/
def escapeQuot (s : String) : String :=
  String.mk (s.data.flatMap (fun c => if c = '"' then "&quot;".data else [c]))

/-- One `<td>` of `_create_html_table`. -/
def tdHtml (cell : Value) : String :=
  let rc := renderCell cell
  "<td data-value=\"" ++ escapeQuot rc.1 ++ "\">" ++ rc.2 ++ "</td>"

/-- One `<tr>` of `_create_html_table`. -/
def trHtml (headers : List String) (row : Value) : String :=
  "<tr>" ++ String.join (headers.map (fun h => tdHtml (rowGet row h))) ++ "</tr>"

/-- The toolbar block emitted by `_create_html_table` (the f-string at
lines 178-192 of message_variable_processor.py, whitespace included). -/
def tableToolbarHtml (table_id : String) (displayLen dataLen : Nat) : String :=
  "\n        <div class=\"table-toolbar\">\n            <div class=\"table-info\">\n                数据行数: "
  ++ natStr displayLen ++ " / " ++ natStr dataLen ++
  "\n            </div>\n            <div class=\"table-actions\">\n                <button class=\"copy-table-btn\" onclick=\"copyTableData(\x27"
  ++ table_id ++
  "\x27)\" title=\"复制表格数据\">\n                    <i class=\"fas fa-copy\"></i> 复制数据\n                </button>\n                <button class=\"copy-csv-btn\" onclick=\"copyTableAsCSV(\x27"
  ++ table_id ++
  "\x27)\" title=\"复制为CSV格式\">\n                    <i class=\"fas fa-file-csv\"></i> 复制CSV\n                </button>\n            </div>\n        </div>\n        "

/-- `_create_html_table(data)`: a self-describing HTML table for a list of
dict rows, capped at 100 displayed rows.  `now` stands for
`int(time.time()*1000)`, used only for the table id. -/
def create_html_table (now : Nat) (data : Value) : String :=
  match data with
  | .arr [] => "<div class=\"no-data\">暂无数据</div>"
  | .arr (row0 :: rest) =>
      let headers : List String := match row0 with
        | .obj kvs => keysOf kvs
        | _ => []
      if headers.isEmpty then "<div class=\"no-data\">数据格式错误</div>"
      else
        let rows := row0 :: rest
        let display_data := rows.take 100
        let show_more := decide (100 < rows.length)
        let table_id := "table_" ++ natStr now
        "<div class=\"table-container\">"
        ++ tableToolbarHtml table_id display_data.length rows.length
        ++ "<table class=\"data-table\" id=\"" ++ table_id ++ "\">"
        ++ "<thead><tr>"
        ++ String.join (headers.map (fun h => "<th>" ++ h ++ "</th>"))
        ++ "</tr></thead>"
        ++ "<tbody>"
        ++ String.join (display_data.map (trHtml headers))
        ++ "</tbody>"
        ++ "</table>"
        ++ (if show_more then
              "<div class=\"table-more-info\">显示前100行，共" ++ natStr rows.length
              ++ "行数据。复制功能将包含所有显示的数据。</div>"
            else "")
        ++ "</div>"
  | _ => "<div class=\"no-data\">暂无数据</div>"

/-- The per-result block of the `multiple_queries` branch of
`_format_sql_result_as_html_table` (f-strings at lines 117-135,
whitespace included).  `i` is the enumeration index. -/
def multiQueryItemHtml (now : Nat) (i : Nat) (item : Value) : String :=
  match valueGet item "error" with
  | some err =>
      "\n                        <div class=\"query-result-section\">\n                            <h4>查询 "
      ++ py_str ((valueGet item "query_index").getD (.num (Int.ofNat (i + 1)))) ++
      "</h4>\n                            <div class=\"error-message\">❌ "
      ++ py_str err ++
      "</div>\n                        </div>\n                        "
  | none =>
      let sqlFull := py_str ((valueGet item "sql").getD (.str ""))
      let sql_preview :=
        if 50 < sqlFull.length then strTake sqlFull 50 ++ "..." else sqlFull
      let table_html := create_html_table now ((valueGet item "result").getD (.arr []))
      "\n                        <div class=\"query-result-section\">\n                            <h4>查询 "
      ++ py_str ((valueGet item "query_index").getD (.num (Int.ofNat (i + 1)))) ++
      ": " ++ sql_preview ++
      "</h4>\n                            <div class=\"result-stats\">行数: "
      ++ py_str ((valueGet item "row_count").getD (.num 0)) ++
      " | 列数: "
      ++ py_str ((valueGet item "column_count").getD (.num 0)) ++
      "</div>\n                            " ++ table_html ++
      "\n                        </div>\n                        "

/-- `_format_sql_result_as_html_table(value)`: multiple-query containers,
plain lists as tables, dict errors as error divs, anything else as JSON.
The defensive `except` fallback of the source is unreachable here because
serialisation is total on `Value`. -/
def format_sql_result_as_html_table (now : Nat) (value : Value) : String :=
  match value with
  | .obj kvs =>
      if ((dictGet kvs "multiple_queries").getD Value.null).truthy then
        let results := match dictGet kvs "results" with
          | some (.arr l) => l
          | _ => []
        "<div class=\"sql-results-container\">"
        ++ String.join ((results.enum.map (fun p => multiQueryItemHtml now p.1 p.2)))
        ++ "</div>"
      else if (dictGet kvs "error").isSome then
        "<div class=\"error-message\">❌ "
        ++ py_str ((dictGet kvs "error").getD Value.null) ++ "</div>"
      else json_dumps (.obj kvs)
  | .arr xs => create_html_table now (.arr xs)
  | v => json_dumps v

/-- The regex character class `\s` of a Python 3 str pattern: Unicode
whitespace, i.e. U+0009-U+000D, U+001C-U+001F, space, U+0085, U+00A0,
U+1680, U+2000-U+200A, U+2028, U+2029, U+202F, U+205F and U+3000
(CPython's `Py_UNICODE_ISSPACE`).  The pattern of
`resolve_placeholders_in_text` uses `\s` only around the quotes and
colon of a placeholder. -/
def isPySpace (c : Char) : Bool :=
  let n := c.toNat
  (9 ≤ n && n ≤ 13) || (28 ≤ n && n ≤ 31) || n == 32 || n == 0x85 ||
    n == 0xA0 || n == 0x1680 || (0x2000 ≤ n && n ≤ 0x200A) ||
    n == 0x2028 || n == 0x2029 || n == 0x202F || n == 0x205F ||
    n == 0x3000

/-- The regex character class `[a-zA-Z0-9_]` (tool-name group). -/
def isToolChar (c : Char) : Bool := c.isAlphanum || c = '_'

/-- The regex character class `[a-zA-Z0-9_\-:.]` (var-name group). -/
def isVarChar (c : Char) : Bool :=
  c.isAlphanum || c = '_' || c = '-' || c = ':' || c = '.'

/-- Consume one expected literal character. -/
def eatLit (c : Char) : List Char → Option (List Char)
  | x :: rest => if x = c then some rest else none
  | [] => none

/-- Consume `\s*` (greedy; safe because no follower of `\s*` in the
pattern is itself whitespace). -/
def dropSpaces (cs : List Char) : List Char := cs.dropWhile isPySpace

/-- Consume a nonempty run of class characters (greedy `+`; safe because
the follower `"` is never in the class). -/
def eatWhile1 (p : Char → Bool) (cs : List Char) :
    Option (List Char × List Char) :=
  let t := cs.takeWhile p
  if t.isEmpty then none else some (t, cs.dropWhile p)

/-- Match the placeholder regex
`\{\s*"([a-zA-Z0-9_]+)"\s*:\s*"([a-zA-Z0-9_\-:.]+)"\s*\}` at the head of
`cs`; on success return the two groups and the remainder of the input. -/
def matchAt (cs : List Char) : Option (String × String × List Char) :=
  match eatLit '{' cs with
  | none => none
  | some r0 =>
  match eatLit '"' (dropSpaces r0) with
  | none => none
  | some r1 =>
  match eatWhile1 isToolChar r1 with
  | none => none
  | some (tool, r2) =>
  match eatLit '"' r2 with
  | none => none
  | some r3 =>
  match eatLit ':' (dropSpaces r3) with
  | none => none
  | some r4 =>
  match eatLit '"' (dropSpaces r4) with
  | none => none
  | some r5 =>
  match eatWhile1 isVarChar r5 with
  | none => none
  | some (var, r6) =>
  match eatLit '"' r6 with
  | none => none
  | some r7 =>
  match eatLit '}' (dropSpaces r7) with
  | none => none
  | some r8 => some (String.mk tool, String.mk var, r8)

/-- The `replacer` closure of `resolve_placeholders_in_text`: keep the
matched text verbatim when a nonempty allow-list excludes the tool or when
the binding is absent (`None`); otherwise substitute the dereferenced
value — as an HTML table for `execute_sql`, as JSON otherwise.  `matched`
is `match.group(0)`; `now` stands for the wall clock read when a table id
is generated. -/
def placeholderReplacer (s : MessageVariableProcessor) (now : Nat)
    (tool var : String) (matched : List Char) : List Char :=
  if !s.known_tools.isEmpty && !s.known_tools.contains tool then matched
  else
    match s.get_binding tool var with
    | .null => matched
    | v =>
        if tool = "execute_sql" then (format_sql_result_as_html_table now v).data
        else (json_dumps v).data

/-- `re.sub` specialised to the placeholder pattern: scan left to right,
replacing each leftmost non-overlapping match via `placeholderReplacer`
and copying every other character verbatim.  `fuel` bounds the recursion;
`fuel = cs.length` always suffices since every match consumes at least one
character. -/
def subPlaceholders (s : MessageVariableProcessor) (now : Nat) :
    Nat → List Char → List Char
  | 0, cs => cs
  | _ + 1, [] => []
  | fuel + 1, c :: cs2 =>
    match matchAt (c :: cs2) with
    | some (tool, var, rest) =>
        let cs := c :: cs2
        let matched := cs.take (cs.length - rest.length)
        placeholderReplacer s now tool var matched
          ++ subPlaceholders s now fuel rest
    | none => c :: subPlaceholders s now fuel cs2

/-- `resolve_placeholders_in_text(text)`: replace every placeholder token
whose binding is live; `None`/empty input yields `""` (the `Option`
models Python `Optional[str]`). -/
def MessageVariableProcessor.resolve_placeholders_in_text
    (s : MessageVariableProcessor) (now : Nat) (text : Option String) :
    String :=
  match text with
  | none => ""
  | some t =>
      if t = "" then ""
      else String.mk (subPlaceholders s now t.data.length t.data)

/-! ## ToolRegistry (src/tools/tool_registry.py) -/

/-- A tool handler: its name and its `execute(args, context)` method.
`Except String` models a raised exception with message `str(e)`; a normal
return is `(success_flag, result_string)`. -/
structure ToolHandler where
  name : String
  execute : Value → Value → Except String (Bool × String)

/-- The registry: `_handlers`, a dict from tool name to handler. -/
structure ToolRegistry where
  handlers : List (String × ToolHandler)

/-- `ToolRegistry.register(handler)`. -/
def ToolRegistry.registerHandler (r : ToolRegistry) (h : ToolHandler) :
    ToolRegistry :=
  ⟨dictSet r.handlers h.name h⟩

/-- `ToolRegistry.get_handler(tool_name)`. -/
def ToolRegistry.get_handler (r : ToolRegistry) (tool_name : String) :
    Option ToolHandler :=
  dictGet r.handlers tool_name

/-- `ToolRegistry.list_tools()`. -/
def ToolRegistry.list_tools (r : ToolRegistry) : List String :=
  keysOf r.handlers

/-- The payload returned for an unregistered tool name. -/
def unknownToolPayload (tool_name : String) : String :=
  json_dumps (.obj [("error", .str ("未知的工具：" ++ tool_name))])

/-- The payload returned when a handler raises `e`. -/
def toolFailedPayload (e : String) : String :=
  json_dumps (.obj [("error", .str ("工具执行失败：" ++ e))])

/-- `ToolRegistry.execute_tool(tool_name, args, context)`: always returns
a `(tool_name, result_string)` pair — an unknown name or a raising handler
is converted to a structured error JSON string, and the `success` flag a
handler returns is discarded. -/
def ToolRegistry.execute_tool (r : ToolRegistry) (tool_name : String)
    (args context : Value) : String × String :=
  match r.get_handler tool_name with
  | none => (tool_name, unknownToolPayload tool_name)
  | some handler =>
      match handler.execute args context with
      | .ok (_success, result) => (tool_name, result)
      | .error e => (tool_name, toolFailedPayload e)

/-! ## ToolCallLoop (src/llm_client.py, OpenAIConnector._handle_chat_with_tools)

The OpenAI gateway is modelled as an oracle
`gw : Bool → List ChatMsg → Except String ModelMessage`: the flag is
whether tools are passed (`tools=None` on the forced-finalisation call),
the list is the transcript, `Except.error` a raised exception.
`_execute_tool_call` is likewise an oracle
`execTC : ToolCall → Except String (String × String)` (it may raise, e.g.
from `json.loads` on malformed arguments); its registry/binding internals
are modelled separately above.  Logging calls carry no observable state
and are omitted. -/

/-- One tool invocation requested by the model. -/
structure ToolCall where
  id : String
  name : String
  arguments : String

/-- A model response message: optional text content and optional tool
calls. -/
structure ModelMessage where
  content : Option String
  tool_calls : Option (List ToolCall)

/-- Transcript entries appended by the loop. -/
inductive ChatMsg where
  | plain (role : String) (content : Option String)
  | assistantCalls (tool_calls : List ToolCall)
  | toolMsg (tool_call_id : String) (content : String)

/-- Python `if not message.tool_calls` (falsy: `None` or `[]`). -/
def noToolCalls (m : ModelMessage) : Bool :=
  match m.tool_calls with
  | none => true
  | some l => l.isEmpty

/-- The directive message appended when `max_tool_rounds` is exhausted. -/
def finalDirectiveMsg : ChatMsg :=
  .plain "user" (some "请基于以上工具调用的结果，直接给出最终答案，不要再调用任何工具。")

/-- The synthetic `MockResponse` message produced when the
forced-finalisation gateway call itself raises `e`. -/
def mockFinalMessage (e : String) : ModelMessage :=
  { content := some ("达到最大工具调用轮数，且获取最终响应时出错: " ++ e),
    tool_calls := none }

/-- The tool-role message appended for one tool call: the execution result
on success, a structured error JSON if `_execute_tool_call` raised. -/
def toolResponseMsg (execTC : ToolCall → Except String (String × String))
    (tc : ToolCall) : ChatMsg :=
  match execTC tc with
  | .ok res => .toolMsg tc.id res.2
  | .error e => .toolMsg tc.id (json_dumps (.obj [("error", .str e)]))

/-- The forced-finalisation step (lines 204-238 of llm_client.py): append
the directive, issue exactly one gateway call with tools disabled, and
downgrade a raised exception to the synthetic terminal message. -/
def forceFinalAnswer (gw : Bool → List ChatMsg → Except String ModelMessage)
    (msgs : List ChatMsg) : Except String ModelMessage :=
  match gw false (msgs ++ [finalDirectiveMsg]) with
  | .ok m => .ok m
  | .error e => .ok (mockFinalMessage e)

/-- `_handle_chat_with_tools`: the `while current_round < max_tool_rounds`
loop, counting rounds down instead of up.  A response without tool calls
terminates the loop; otherwise the assistant turn and one tool message per
call are appended and the loop repeats; exhaustion falls through to
`forceFinalAnswer`.  A gateway exception during a normal round
propagates. -/
def handle_chat_with_tools
    (gw : Bool → List ChatMsg → Except String ModelMessage)
    (execTC : ToolCall → Except String (String × String)) :
    Nat → List ChatMsg → Except String ModelMessage
  | 0, msgs => forceFinalAnswer gw msgs
  | rounds + 1, msgs =>
    match gw true msgs with
    | .error e => .error e
    | .ok m =>
        if noToolCalls m then .ok m
        else
          let calls := m.tool_calls.getD []
          handle_chat_with_tools gw execTC rounds
            (msgs ++ [ChatMsg.assistantCalls calls]
              ++ calls.map (toolResponseMsg execTC))

/-! ## FanOutPipeline (src/dialogue_service.py, generate_ppt_async)

The per-unit generation (`_generate_slide_content`) performs an LLM round
trip, placeholder resolution and JSON parsing; these are abstracted as an
oracle `gen : Nat → Nat → Except String Slide` giving, per (section,
subsection) position, either the successfully built slide or the message
of the exception caught by the outermost `except` (lines 361-373), which
produces the degraded error slide.  Completion order of the futures is
modelled by letting the collected `(content_key, result)` list be an
arbitrary permutation of the submitted one. -/

/-- One content block of a slide. -/
inductive CBlock where
  | text (t : String) (bullet_points : List String)
  | chart (chart_type chart_title : String)
      (categories : List String) (series : List (String × List Int))
deriving DecidableEq

/-- One slide of the generated deck. -/
structure Slide where
  type : String
  title : String
  contents : List CBlock
deriving DecidableEq

/-- The degraded error slide built by the outermost `except` branch of
`_generate_slide_content` for a unit whose generation raised `e`. -/
def degradedSlide (subsection_title e : String) : Slide :=
  { type := "content",
    title := subsection_title,
    contents := [CBlock.text ("生成内容时出错: " ++ e) []] }

/-- `_generate_slide_content` as seen by the pipeline: the built slide, or
the degraded placeholder when generation raised. -/
def generate_slide_content (outcome : Except String Slide)
    (subsection_title : String) : Slide :=
  match outcome with
  | .ok s => s
  | .error e => degradedSlide subsection_title e

/-- `content_key = f"[section_idx]_[subsection_idx]"`. -/
def contentKey (i j : Nat) : String := natStr i ++ "_" ++ natStr j

/-- The ordered list of content units of an outline: position
`(section_idx, subsection_idx)` plus the subsection title, in submission
order (the doubly nested `enumerate` of generate_ppt_async). -/
def fanUnits (outline : List (List String)) : List (Nat × Nat × String) :=
  (outline.enum.map (fun sec =>
    sec.2.enum.map (fun sub => (sec.1, sub.1, sub.2)))).flatten

/-- The `(content_key, result)` pairs produced by the fan-out stage, in
submission order. -/
def fanOutResults (outline : List (List String))
    (gen : Nat → Nat → Except String Slide) : List (String × Slide) :=
  (fanUnits outline).map (fun u =>
    (contentKey u.1 u.2.1, generate_slide_content (gen u.1 u.2.1) u.2.2))

/-- `content_map[content_key] = result` over the collected results. -/
def buildContentMap (results : List (String × Slide)) :
    List (String × Slide) :=
  results.foldl (fun d kv => dictSet d kv.1 kv.2) []

/-- The reassembly loop restricted to content slides: for each unit in
outline order, `if content_key in content_map: append content_map[key]`
(cover/section/summary slides are interleaved by the caller and are not
content units). -/
def assembleContents (outline : List (List String))
    (contentMap : List (String × Slide)) : List Slide :=
  (fanUnits outline).filterMap (fun u => dictGet contentMap (contentKey u.1 u.2.1))


/-! ## Auxiliary definitions used by the theorems -/

/-- Numeric value of a decimal digit character. -/
def digitVal (c : Char) : Nat := c.toNat - 48

/-- Decimal value of a digit string. -/
def digitsVal (l : List Char) : Nat :=
  l.foldl (fun a c => a * 10 + digitVal c) 0

/-- Whether the replacer leaves tokens of `(tool, var)` verbatim: a
nonempty allow-list excludes the tool, or the binding is absent. -/
def tokenUnresolved (s : MessageVariableProcessor) (tool var : String) :
    Bool :=
  (!s.known_tools.isEmpty && !s.known_tools.contains tool) ||
    (match s.get_binding tool var with
     | .null => true
     | _ => false)

/-- Whether, at one scan position, either nothing matches or the matched
token would be left verbatim. -/
def matchUnresolved (s : MessageVariableProcessor) (suffix : List Char) :
    Bool :=
  match matchAt suffix with
  | none => true
  | some (tool, var, _) => tokenUnresolved s tool var

/-- The states a `MessageVariableProcessor` can reach from construction
through its mutating interface (`register_binding` and
`register_known_tool`; lookups and resolution do not mutate, being pure
functions of the state here as in the source). -/
inductive MVPReach : MessageVariableProcessor → Prop where
  | init (mi pi2 pc : Nat) : MVPReach (MessageVariableProcessor.init mi pi2 pc)
  | reg (s : MessageVariableProcessor) (tool : String) (value : Value)
      (vn : Option String) (fresh : String) :
      MVPReach s → MVPReach (s.register_binding tool value vn fresh).2
  | known (s : MessageVariableProcessor) (tool : String) :
      MVPReach s → MVPReach (s.register_known_tool tool)

/-- Store invariant: store keys are distinct, every store key is in the
order list, and the order list is within capacity. -/
def StoreInv (s : MessageVariableProcessor) : Prop :=
  (keysOf s.store).Nodup ∧
  (∀ k ∈ keysOf s.store, k ∈ s.order) ∧
  s.order.length ≤ s.max_store_items

/-- The binding key that `register_binding` inserts. -/
def regKey (tool : String) (vn : Option String) (fresh : String) : BKey :=
  (tool, match vn with | some v => v | none => tool ++ "_" ++ fresh)

/-- A sequence of `register_binding` calls with explicit variable names. -/
def registerAll (s : MessageVariableProcessor)
    (ops : List (String × String × Value)) : MessageVariableProcessor :=
  ops.foldl (fun t o => (t.register_binding o.1 o.2.2 (some o.2.1) "").2) s

/-- Key of one `registerAll` operation. -/
def opKey (o : String × String × Value) : BKey := (o.1, o.2.1)

/-- The bound required of a preview: sequences cut to
`preview_max_items`, strings to `preview_max_chars`, mappings
shallow-truncated to at most 20 entries whose list/str values are cut
likewise. -/
def previewBounded (s : MessageVariableProcessor) (p : Value) : Prop :=
  match p with
  | .str t => t.length ≤ s.preview_max_chars
  | .arr l => l.length ≤ s.preview_max_items
  | .obj kvs =>
      kvs.length ≤ 20 ∧
      ∀ kv ∈ kvs,
        (match kv.2 with
         | .arr l => l.length ≤ s.preview_max_items
         | .str t => t.length ≤ s.preview_max_chars
         | _ => True)
  | _ => True

/-- A gateway oracle that always requests another tool call when tools
are enabled and always raises when they are disabled (drives the
forced-finalisation path end to end). -/
def alwaysCallGw : Bool → List ChatMsg → Except String ModelMessage :=
  fun tools_enabled _ =>
    if tools_enabled then
      .ok { content := none,
            tool_calls := some
              [{ id := "call_1", name := "looping_tool",
                 arguments := "\x7b\x7d" }] }
    else .error "gateway unavailable"

/-- A tool executor that always succeeds (for driving the loop). -/
def okExec : ToolCall → Except String (String × String) :=
  fun tc => .ok (tc.name, "ok")

/-- A handler whose successful result text coincides with the
unknown-tool error payload for its own name. -/
def impostorHandler : ToolHandler :=
  { name := "t",
    execute := fun _ _ => .ok (true, unknownToolPayload "t") }

/-- The value `[{"x": 1}]` of the concrete registration case. -/
def c5val : Value := .arr [.obj [("x", .num 1)]]

/-- Capacity-2 store taken through a duplicate registration of `(T, x)`
followed by a fresh key, driving one eviction step. -/
def c10state : MessageVariableProcessor :=
  ((((MessageVariableProcessor.init 2 50 2000).register_binding "T"
      (.str "one") (some "x") "").2.register_binding "T"
      (.str "two") (some "x") "").2.register_binding "U"
      (.str "u") (some "y") "").2

/-- Position key of a content unit. -/
def fanPos (u : Nat × Nat × String) : Nat × Nat := (u.1, u.2.1)

/-- String content key of a content unit. -/
def fanKey (u : Nat × Nat × String) : String := contentKey u.1 u.2.1

/-- `fanUnits` with the outer enumeration starting at `n` (for
induction; `fanUnits = fanUnitsFrom 0`). -/
def fanUnitsFrom (n : Nat) (outline : List (List String)) :
    List (Nat × Nat × String) :=
  ((outline.enumFrom n).map (fun sec =>
    sec.2.enum.map (fun sub => (sec.1, sub.1, sub.2)))).flatten

/-- A generation oracle whose middle unit fails. -/
def c7gen : Nat → Nat → Except String Slide :=
  fun _ j =>
    if j = 1 then .error "boom"
    else .ok { type := "content", title := "ok" ++ natStr j, contents := [] }

/-- The collected fan-out results in a completion order (C, A, B)
different from submission order (A, B, C). -/
def c7results : List (String × Slide) :=
  [(contentKey 0 2, generate_slide_content (c7gen 0 2) "C"),
   (contentKey 0 0, generate_slide_content (c7gen 0 0) "A"),
   (contentKey 0 1, generate_slide_content (c7gen 0 1) "B")]

/-- One segment of the resolver's left-to-right scan: a character
outside every match, copied verbatim, or one leftmost non-overlapping
match of the placeholder pattern with its `group(0)` text. -/
inductive Seg where
  | lit (c : Char)
  | tok (tool var : String) (matched : List Char)

/-- The input text a segment covers. -/
def Seg.source : Seg → List Char
  | .lit c => [c]
  | .tok _ _ matched => matched

/-- What a segment contributes to the resolver's output: a literal
character verbatim, a matched token via the replacer. -/
def Seg.render (s : MessageVariableProcessor) (now : Nat) : Seg → List Char
  | .lit c => [c]
  | .tok tool var matched => placeholderReplacer s now tool var matched

/-- The scan of `subPlaceholders`, reified as its segment list (same
traversal and fuel; exhausted fuel copies the remainder verbatim, as
`subPlaceholders` does). -/
def scanSegs : Nat → List Char → List Seg
  | 0, cs => cs.map Seg.lit
  | _ + 1, [] => []
  | fuel + 1, c :: cs2 =>
    match matchAt (c :: cs2) with
    | some (tool, var, rest) =>
        Seg.tok tool var ((c :: cs2).take ((c :: cs2).length - rest.length))
          :: scanSegs fuel rest
    | none => Seg.lit c :: scanSegs fuel cs2

/-- A store holding one live binding `(execute_sql, v1)`, for driving a
mixed live/absent resolution. -/
def c4mixedState : MessageVariableProcessor :=
  ((MessageVariableProcessor.init 50 50 2000).register_binding
    "execute_sql" (.num 5) (some "v1") "").2

/-! ## Dictionary lemmas -/

theorem dictGet_nil {α β : Type} [DecidableEq α] (k : α) :
    dictGet ([] : List (α × β)) k = none := rfl

theorem dictGet_cons {α β : Type} [DecidableEq α] (a : α × β)
    (d : List (α × β)) (k : α) :
    dictGet (a :: d) k = if a.1 = k then some a.2 else dictGet d k := by
  by_cases h : a.1 = k
  · simp [dictGet, List.find?_cons_of_pos, h]
  · simp [dictGet, List.find?_cons_of_neg, h]

theorem keysOf_nil {α β : Type} : keysOf ([] : List (α × β)) = [] := rfl

theorem keysOf_cons {α β : Type} (a : α × β) (d : List (α × β)) :
    keysOf (a :: d) = a.1 :: keysOf d := rfl

theorem dictSet_nil {α β : Type} [DecidableEq α] (k : α) (v : β) :
    dictSet ([] : List (α × β)) k v = [(k, v)] := rfl

theorem dictSet_cons_ne {α β : Type} [DecidableEq α] (a : α × β)
    (d : List (α × β)) (k : α) (v : β) (h : a.1 ≠ k) :
    dictSet (a :: d) k v = a :: dictSet d k v := by
  by_cases hany : d.any (fun p => decide (p.1 = k)) <;>
    simp [dictSet, List.any_cons, h, hany]

theorem dictSet_cons_eq {α β : Type} [DecidableEq α] (a : α × β)
    (d : List (α × β)) (k : α) (v : β) (h : a.1 = k) :
    dictSet (a :: d) k v =
      (k, v) :: d.map (fun p => if p.1 = k then (k, v) else p) := by
  simp [dictSet, List.any_cons, h]

theorem dictGet_map_subst {α β : Type} [DecidableEq α] (d : List (α × β))
    (k k2 : α) (v : β) (h : k2 ≠ k) :
    dictGet (d.map (fun p => if p.1 = k then (k, v) else p)) k2 =
      dictGet d k2 := by
  induction d with
  | nil => rfl
  | cons a d ih =>
    by_cases hk : a.1 = k
    · have h1 : ¬ (k = k2) := fun he => h he.symm
      have h2 : ¬ (a.1 = k2) := by rw [hk]; exact h1
      rw [List.map_cons, if_pos hk, dictGet_cons, dictGet_cons, if_neg h2]
      simp only [if_neg h1]
      exact ih
    · rw [List.map_cons, if_neg hk, dictGet_cons, dictGet_cons, ih]

theorem dictGet_set {α β : Type} [DecidableEq α] (d : List (α × β))
    (k k2 : α) (v : β) :
    dictGet (dictSet d k v) k2 = if k2 = k then some v else dictGet d k2 := by
  induction d with
  | nil =>
    rw [dictSet_nil, dictGet_cons, dictGet_nil]
    by_cases h : k2 = k
    · rw [if_pos h, if_pos h.symm]
    · rw [if_neg h, if_neg (fun he => h he.symm)]
  | cons a d ih =>
    by_cases hk : a.1 = k
    · rw [dictSet_cons_eq a d k v hk, dictGet_cons]
      by_cases h2 : k2 = k
      · rw [if_pos h2.symm, if_pos h2]
      · have h1 : ¬ (k = k2) := fun he => h2 he.symm
        have h3 : ¬ (a.1 = k2) := by rw [hk]; exact h1
        rw [if_neg h1, if_neg h2, dictGet_map_subst d k k2 v h2,
          dictGet_cons, if_neg h3]
    · rw [dictSet_cons_ne a d k v hk, dictGet_cons, dictGet_cons, ih]
      by_cases h2 : k2 = k
      · have h3 : ¬ (a.1 = k2) := by rw [← h2] at hk; exact hk
        simp [h2, h3, hk]
      · simp [h2]

theorem dictPop_cons {α β : Type} [DecidableEq α] (a : α × β)
    (d : List (α × β)) (k : α) :
    dictPop (a :: d) k = if a.1 = k then dictPop d k else a :: dictPop d k := by
  by_cases h : a.1 = k <;> simp [dictPop, List.filter_cons, h]

theorem dictGet_pop {α β : Type} [DecidableEq α] (d : List (α × β))
    (k k2 : α) :
    dictGet (dictPop d k) k2 = if k2 = k then none else dictGet d k2 := by
  induction d with
  | nil =>
    by_cases h : k2 = k <;> simp [dictPop, dictGet_nil, h]
  | cons a d ih =>
    rw [dictPop_cons]
    by_cases hk : a.1 = k
    · rw [if_pos hk, ih, dictGet_cons]
      by_cases h2 : k2 = k
      · rw [if_pos h2, if_pos h2]
      · have h3 : ¬ (a.1 = k2) := by rw [hk]; exact fun he => h2 he.symm
        rw [if_neg h2, if_neg h2, if_neg h3]
    · rw [if_neg hk, dictGet_cons, dictGet_cons]
      by_cases h3 : a.1 = k2
      · have h2 : ¬ (k2 = k) := by rw [← h3]; exact fun he => hk he
        rw [if_pos h3, if_pos h3, if_neg h2]
      · rw [if_neg h3, if_neg h3, ih]

theorem dictGet_foldl_pop {α β : Type} [DecidableEq α] (ks : List α)
    (d : List (α × β)) (k : α) :
    dictGet (ks.foldl dictPop d) k = if k ∈ ks then none else dictGet d k := by
  induction ks generalizing d with
  | nil => simp
  | cons k0 ks ih =>
    simp only [List.foldl_cons]
    rw [ih]
    by_cases h : k ∈ ks
    · simp [h]
    · by_cases h0 : k = k0 <;> simp [h, h0, dictGet_pop]

theorem dictGet_eq_none_iff {α β : Type} [DecidableEq α] (d : List (α × β))
    (k : α) : dictGet d k = none ↔ k ∉ keysOf d := by
  induction d with
  | nil => simp [dictGet_nil, keysOf_nil]
  | cons a d ih =>
    rw [dictGet_cons, keysOf_cons]
    by_cases h : a.1 = k
    · rw [if_pos h]
      constructor
      · intro hc; exact absurd hc (by simp)
      · intro hm
        exact absurd (h ▸ List.mem_cons_self a.1 (keysOf d)) hm
    · rw [if_neg h, ih]
      constructor
      · intro hm hc
        rcases List.mem_cons.mp hc with he | hd2
        · exact h he.symm
        · exact hm hd2
      · intro hm hd2
        exact hm (List.mem_cons_of_mem _ hd2)

theorem keysOf_map_subst {α β : Type} [DecidableEq α] (d : List (α × β))
    (k : α) (v : β) :
    keysOf (d.map (fun p => if p.1 = k then (k, v) else p)) = keysOf d := by
  induction d with
  | nil => rfl
  | cons a d ih =>
    rw [List.map_cons]
    by_cases h : a.1 = k
    · rw [if_pos h, keysOf_cons, keysOf_cons, ih, h]
    · rw [if_neg h, keysOf_cons, keysOf_cons, ih]

theorem any_key_iff {α β : Type} [DecidableEq α] (d : List (α × β)) (k : α) :
    d.any (fun p => decide (p.1 = k)) = true ↔ k ∈ keysOf d := by
  rw [List.any_eq_true]
  constructor
  · rintro ⟨p, hp, he⟩
    rw [decide_eq_true_eq] at he
    exact he ▸ (List.mem_map.mpr ⟨p, hp, rfl⟩)
  · intro hm
    rcases List.mem_map.mp hm with ⟨p, hp, he⟩
    exact ⟨p, hp, by rw [decide_eq_true_eq]; exact he⟩

theorem keysOf_dictSet_mem {α β : Type} [DecidableEq α] (d : List (α × β))
    (k : α) (v : β) (h : d.any (fun p => decide (p.1 = k))) :
    keysOf (dictSet d k v) = keysOf d := by
  simp only [dictSet, if_pos h]
  exact keysOf_map_subst d k v

theorem keysOf_dictSet_new {α β : Type} [DecidableEq α] (d : List (α × β))
    (k : α) (v : β) (h : ¬ d.any (fun p => decide (p.1 = k))) :
    keysOf (dictSet d k v) = keysOf d ++ [k] := by
  simp only [dictSet, if_neg h, keysOf, List.map_append, List.map_cons,
    List.map_nil]

theorem keysOf_dictSet_nodup {α β : Type} [DecidableEq α] (d : List (α × β))
    (k : α) (v : β) (h : (keysOf d).Nodup) :
    (keysOf (dictSet d k v)).Nodup := by
  by_cases hany : d.any (fun p => decide (p.1 = k))
  · rw [keysOf_dictSet_mem d k v hany]; exact h
  · rw [keysOf_dictSet_new d k v hany]
    have hk : k ∉ keysOf d := fun hm => hany ((any_key_iff d k).mpr hm)
    rw [List.nodup_append]
    refine ⟨h, List.nodup_singleton k, ?_⟩
    intro x hx hx2
    rw [List.mem_singleton] at hx2
    exact hk (hx2 ▸ hx)

theorem keysOf_pop_sub {α β : Type} [DecidableEq α] (d : List (α × β))
    (k k2 : α) (h : k2 ∈ keysOf (dictPop d k)) : k2 ∈ keysOf d := by
  have h1 : dictGet (dictPop d k) k2 ≠ none := by
    intro hn
    exact (dictGet_eq_none_iff _ _).mp hn h
  rw [dictGet_pop] at h1
  by_cases he : k2 = k
  · rw [if_pos he] at h1; exact absurd rfl h1
  · rw [if_neg he] at h1
    by_contra hm
    exact h1 ((dictGet_eq_none_iff d k2).mpr hm)

theorem keysOf_pop_nodup {α β : Type} [DecidableEq α] (d : List (α × β))
    (k : α) (h : (keysOf d).Nodup) : (keysOf (dictPop d k)).Nodup := by
  induction d with
  | nil => simp [dictPop, keysOf_nil]
  | cons a d ih =>
    rw [keysOf_cons] at h
    obtain ⟨ha, hd⟩ := List.nodup_cons.mp h
    rw [dictPop_cons]
    by_cases hk : a.1 = k
    · rw [if_pos hk]; exact ih hd
    · rw [if_neg hk, keysOf_cons]
      exact List.nodup_cons.mpr
        ⟨fun hm => ha (keysOf_pop_sub d k a.1 hm), ih hd⟩

theorem dictSet_length {α β : Type} [DecidableEq α] (d : List (α × β))
    (k : α) (v : β) :
    (dictSet d k v).length =
      if d.any (fun p => decide (p.1 = k)) then d.length else d.length + 1 := by
  by_cases h : d.any (fun p => decide (p.1 = k)) <;> simp [dictSet, h]

/-! ## Eviction-loop characterisation -/

theorem evictLoop_eq (order : List BKey) (store : List (BKey × Value))
    (m : Nat) :
    evictLoop order store m =
      ((order.take (order.length - m)).foldl dictPop store,
        order.drop (order.length - m)) := by
  induction order generalizing store with
  | nil => simp [evictLoop]
  | cons k rest ih =>
    by_cases h : m < rest.length + 1
    · have hlen : (k :: rest).length - m = (rest.length - m) + 1 := by
        simp only [List.length_cons]; omega
      rw [evictLoop, if_pos h, ih, hlen]
      simp [List.foldl_cons]
    · have hlen : (k :: rest).length - m = 0 := by
        simp only [List.length_cons]; omega
      rw [evictLoop, if_neg h, hlen]
      simp

/-! ## Decimal-representation lemmas -/

theorem char_toNat_ofNat_small (m : Nat) (h : m < 55296) :
    (Char.ofNat m).toNat = m := by
  have hv : Nat.isValidChar m := Or.inl h
  simp only [Char.ofNat, hv, dif_pos, Char.ofNatAux, Char.toNat]
  simp [UInt32.toNat, BitVec.toNat_ofNatLt]

theorem natDigitsAux_head_digit (n : Nat) :
    48 ≤ (Char.ofNat (48 + n % 10)).toNat ∧
      (Char.ofNat (48 + n % 10)).toNat ≤ 57 := by
  have hm : n % 10 < 10 := Nat.mod_lt n (by omega)
  rw [char_toNat_ofNat_small (48 + n % 10) (by omega)]
  omega

theorem natDigitsAux_append (f : Nat) : ∀ (n : Nat) (acc : List Char),
    natDigitsAux f n acc = natDigitsAux f n [] ++ acc := by
  induction f with
  | zero => intro n acc; simp [natDigitsAux]
  | succ f ih =>
    intro n acc
    simp only [natDigitsAux]
    by_cases h : n < 10
    · simp [h]
    · rw [if_neg h, if_neg h, ih (n / 10) (Char.ofNat (48 + n % 10) :: acc),
        ih (n / 10) [Char.ofNat (48 + n % 10)], List.append_assoc]
      simp

theorem natDigitsAux_chars (f : Nat) : ∀ (n : Nat) (acc : List Char)
    (c : Char), c ∈ natDigitsAux f n acc →
    c ∈ acc ∨ (48 ≤ c.toNat ∧ c.toNat ≤ 57) := by
  induction f with
  | zero => intro n acc c hc; exact Or.inl hc
  | succ f ih =>
    intro n acc c hc
    simp only [natDigitsAux] at hc
    by_cases h : n < 10
    · rw [if_pos h] at hc
      rcases List.mem_cons.mp hc with he | ha
      · exact Or.inr (he ▸ natDigitsAux_head_digit n)
      · exact Or.inl ha
    · rw [if_neg h] at hc
      rcases ih (n / 10) (Char.ofNat (48 + n % 10) :: acc) c hc with ha | hd
      · rcases List.mem_cons.mp ha with he | ha2
        · exact Or.inr (he ▸ natDigitsAux_head_digit n)
        · exact Or.inl ha2
      · exact Or.inr hd

theorem digitsVal_concat (l : List Char) (c : Char) :
    digitsVal (l ++ [c]) = digitsVal l * 10 + digitVal c := by
  simp [digitsVal, List.foldl_append]

theorem natDigitsAux_val (f : Nat) : ∀ n : Nat, n < f →
    digitsVal (natDigitsAux f n []) = n := by
  induction f with
  | zero => intro n h; omega
  | succ f ih =>
    intro n h
    simp only [natDigitsAux]
    by_cases h10 : n < 10
    · rw [if_pos h10]
      have := natDigitsAux_head_digit n
      simp [digitsVal, digitVal]
      rw [char_toNat_ofNat_small (48 + n % 10) (by omega)]
      omega
    · rw [if_neg h10, natDigitsAux_append, digitsVal_concat]
      have hlt : n / 10 < f := by
        have h1 : n / 10 < n := Nat.div_lt_self (by omega) (by omega)
        omega
      rw [ih (n / 10) hlt]
      have : digitVal (Char.ofNat (48 + n % 10)) = n % 10 := by
        have hm : n % 10 < 10 := Nat.mod_lt n (by omega)
        simp [digitVal]
        rw [char_toNat_ofNat_small (48 + n % 10) (by omega)]
        omega
      rw [this]
      omega

theorem natStr_val (n : Nat) : digitsVal (natStr n).data = n := by
  simp only [natStr]
  exact natDigitsAux_val (n + 1) n (by omega)

theorem natStr_inj (m n : Nat) (h : natStr m = natStr n) : m = n := by
  have hd : (natStr m).data = (natStr n).data := congrArg String.data h
  calc m = digitsVal (natStr m).data := (natStr_val m).symm
    _ = digitsVal (natStr n).data := by rw [hd]
    _ = n := natStr_val n

theorem natStr_chars (n : Nat) (c : Char) (hc : c ∈ (natStr n).data) :
    48 ≤ c.toNat ∧ c.toNat ≤ 57 := by
  simp only [natStr] at hc
  rcases natDigitsAux_chars (n + 1) n [] c hc with ha | hd
  · exact absurd ha (List.not_mem_nil c)
  · exact hd

theorem natStr_no_underscore (n : Nat) : '_' ∉ (natStr n).data := by
  intro hm
  have := natStr_chars n '_' hm
  have h95 : ('_' : Char).toNat = 95 := rfl
  omega

theorem append_underscore_inj (a b a2 b2 : List Char)
    (ha : '_' ∉ a) (ha2 : '_' ∉ a2)
    (h : a ++ '_' :: b = a2 ++ '_' :: b2) : a = a2 ∧ b = b2 := by
  induction a generalizing a2 with
  | nil =>
    cases a2 with
    | nil => simp at h; exact ⟨rfl, h⟩
    | cons y a2 =>
      rw [List.nil_append, List.cons_append] at h
      injection h with h1 h2
      have hmem : ('_' : Char) ∈ y :: a2 := by
        rw [← h1]; exact List.mem_cons_self '_' a2
      exact absurd hmem ha2
  | cons x a ih =>
    cases a2 with
    | nil =>
      rw [List.cons_append, List.nil_append] at h
      injection h with h1 h2
      have hmem : ('_' : Char) ∈ x :: a := by
        rw [h1]; exact List.mem_cons_self '_' a
      exact absurd hmem ha
    | cons y a2 =>
      rw [List.cons_append, List.cons_append] at h
      injection h with hxy hrest
      have hna : '_' ∉ a := fun hm => ha (List.mem_cons_of_mem x hm)
      have hna2 : '_' ∉ a2 := fun hm => ha2 (List.mem_cons_of_mem y hm)
      obtain ⟨he1, he2⟩ := ih a2 hna hna2 hrest
      exact ⟨by rw [hxy, he1], he2⟩

theorem contentKey_inj (i j i2 j2 : Nat)
    (h : contentKey i j = contentKey i2 j2) : i = i2 ∧ j = j2 := by
  have hd : (natStr i).data ++ '_' :: (natStr j).data =
      (natStr i2).data ++ '_' :: (natStr j2).data := by
    have := congrArg String.data h
    simpa [contentKey, String.data_append] using this
  obtain ⟨h1, h2⟩ := append_underscore_inj _ _ _ _
    (natStr_no_underscore i) (natStr_no_underscore i2) hd
  exact ⟨natStr_inj i i2 (String.ext h1), natStr_inj j j2 (String.ext h2)⟩

/-! ## BindingStore invariants -/

theorem register_binding_eq (s : MessageVariableProcessor) (tool : String)
    (v : Value) (vn : Option String) (fresh : String) :
    s.register_binding tool v vn fresh =
      ((regKey tool vn fresh).2,
        { s with
          store := ((s.order ++ [regKey tool vn fresh]).take
              (s.order.length + 1 - s.max_store_items)).foldl dictPop
              (dictSet s.store (regKey tool vn fresh) v),
          order := (s.order ++ [regKey tool vn fresh]).drop
              (s.order.length + 1 - s.max_store_items) }) := by
  cases vn with
  | none =>
    simp [MessageVariableProcessor.register_binding, regKey, evictLoop_eq,
      List.length_append]
  | some v2 =>
    simp [MessageVariableProcessor.register_binding, regKey, evictLoop_eq,
      List.length_append]

theorem keysOf_foldl_pop_nodup (ks : List BKey) (d : List (BKey × Value))
    (h : (keysOf d).Nodup) : (keysOf (ks.foldl dictPop d)).Nodup := by
  induction ks generalizing d with
  | nil => exact h
  | cons k ks ih =>
    rw [List.foldl_cons]
    exact ih (dictPop d k) (keysOf_pop_nodup d k h)

theorem keysOf_dictSet_sub {α β : Type} [DecidableEq α] (d : List (α × β))
    (k : α) (v : β) (k2 : α) (h : k2 ∈ keysOf (dictSet d k v)) :
    k2 ∈ keysOf d ∨ k2 = k := by
  by_cases hany : d.any (fun p => decide (p.1 = k))
  · rw [keysOf_dictSet_mem d k v hany] at h; exact Or.inl h
  · rw [keysOf_dictSet_new d k v hany] at h
    rcases List.mem_append.mp h with hm | hm
    · exact Or.inl hm
    · exact Or.inr (List.mem_singleton.mp hm)

theorem nodup_subset_length {α : Type} [DecidableEq α] (l1 l2 : List α)
    (h : l1.Nodup) (hs : l1 ⊆ l2) : l1.length ≤ l2.length := by
  calc l1.length = l1.toFinset.card := (List.toFinset_card_of_nodup h).symm
    _ ≤ l2.toFinset.card := Finset.card_le_card (fun a ha => by
        rw [List.mem_toFinset] at ha ⊢; exact hs ha)
    _ ≤ l2.length := l2.toFinset_card_le

theorem storeInv_register (s : MessageVariableProcessor)
    (hInv : StoreInv s) (tool : String) (v : Value) (vn : Option String)
    (fresh : String) : StoreInv (s.register_binding tool v vn fresh).2 := by
  obtain ⟨hnd, hsub, _hcap⟩ := hInv
  rw [register_binding_eq]
  refine ⟨?_, ?_, ?_⟩
  · exact keysOf_foldl_pop_nodup _ _ (keysOf_dictSet_nodup _ _ _ hnd)
  · intro k hk
    have hne : dictGet (((s.order ++ [regKey tool vn fresh]).take
        (s.order.length + 1 - s.max_store_items)).foldl dictPop
        (dictSet s.store (regKey tool vn fresh) v)) k ≠ none := by
      intro hn
      exact (dictGet_eq_none_iff _ _).mp hn hk
    rw [dictGet_foldl_pop] at hne
    by_cases hpop : k ∈ (s.order ++ [regKey tool vn fresh]).take
        (s.order.length + 1 - s.max_store_items)
    · rw [if_pos hpop] at hne; exact absurd rfl hne
    · rw [if_neg hpop] at hne
      have hk1 : k ∈ keysOf (dictSet s.store (regKey tool vn fresh) v) := by
        by_contra hm
        exact hne ((dictGet_eq_none_iff _ _).mpr hm)
      have hk2 : k ∈ s.order ++ [regKey tool vn fresh] := by
        rcases keysOf_dictSet_sub _ _ _ _ hk1 with hm | he
        · exact List.mem_append.mpr (Or.inl (hsub k hm))
        · exact List.mem_append.mpr (Or.inr (List.mem_singleton.mpr he))
      have := List.take_append_drop
        (s.order.length + 1 - s.max_store_items)
        (s.order ++ [regKey tool vn fresh])
      rw [← this] at hk2
      rcases List.mem_append.mp hk2 with hm | hm
      · exact absurd hm hpop
      · exact hm
  · rw [List.length_drop, List.length_append]
    simp only [List.length_cons, List.length_nil]
    omega

theorem storeInv_known (s : MessageVariableProcessor) (tool : String)
    (h : StoreInv s) : StoreInv (s.register_known_tool tool) := by
  unfold MessageVariableProcessor.register_known_tool
  split
  · split
    · exact h
    · exact h
  · exact h

theorem storeInv_init (mi pi2 pc : Nat) :
    StoreInv (MessageVariableProcessor.init mi pi2 pc) := by
  refine ⟨List.nodup_nil, ?_, ?_⟩
  · intro k hk; exact absurd hk (List.not_mem_nil k)
  · simp [MessageVariableProcessor.init]

theorem mvpReach_storeInv (s : MessageVariableProcessor)
    (h : MVPReach s) : StoreInv s := by
  induction h with
  | init mi pi2 pc => exact storeInv_init mi pi2 pc
  | reg s tool value vn fresh _ ih => exact storeInv_register s ih tool value vn fresh
  | known s tool _ ih => exact storeInv_known s tool ih

theorem storeInv_store_length (s : MessageVariableProcessor)
    (h : StoreInv s) : s.store.length ≤ s.max_store_items := by
  obtain ⟨hnd, hsub, hcap⟩ := h
  have h1 : (keysOf s.store).length ≤ s.order.length :=
    nodup_subset_length _ _ hnd (fun k hk => hsub k hk)
  have h2 : (keysOf s.store).length = s.store.length := List.length_map _ _
  omega

theorem register_binding_no_evict (s : MessageVariableProcessor)
    (tool : String) (v : Value) (vn : Option String) (fresh : String)
    (h : s.order.length + 1 ≤ s.max_store_items) :
    (s.register_binding tool v vn fresh).2 =
      { s with store := dictSet s.store (regKey tool vn fresh) v,
               order := s.order ++ [regKey tool vn fresh] } := by
  rw [register_binding_eq]
  have h0 : s.order.length + 1 - s.max_store_items = 0 := by omega
  simp [h0]

theorem register_binding_fst (s : MessageVariableProcessor)
    (tool : String) (v : Value) (vn : Option String) (fresh : String) :
    (s.register_binding tool v vn fresh).1 = (regKey tool vn fresh).2 := by
  rw [register_binding_eq]

theorem registerAll_no_evict (ops : List (String × String × Value)) :
    ∀ (s : MessageVariableProcessor),
    s.order.length + ops.length ≤ s.max_store_items →
    (registerAll s ops).order = s.order ++ ops.map opKey ∧
    (registerAll s ops).store =
      ops.foldl (fun st o => dictSet st (opKey o) o.2.2) s.store ∧
    (registerAll s ops).max_store_items = s.max_store_items := by
  induction ops with
  | nil => intro s h; simp [registerAll]
  | cons o rest ih =>
    intro s h
    have hstep : (s.register_binding o.1 o.2.2 (some o.2.1) "").2 =
        { s with store := dictSet s.store (regKey o.1 (some o.2.1) "") o.2.2,
                 order := s.order ++ [regKey o.1 (some o.2.1) ""] } := by
      apply register_binding_no_evict
      simp only [List.length_cons] at h
      omega
    have hkey : regKey o.1 (some o.2.1) "" = opKey o := rfl
    rw [hkey] at hstep
    have hrest := ih { s with
        store := dictSet s.store (opKey o) o.2.2,
        order := s.order ++ [opKey o] }
      (by
        simp only [List.length_append, List.length_cons, List.length_nil]
        simp only [List.length_cons] at h
        omega)
    simp only [registerAll, List.foldl_cons] at hrest ⊢
    rw [hstep]
    refine ⟨?_, hrest.2.1, hrest.2.2⟩
    rw [hrest.1]
    simp [List.append_assoc]

theorem dictGet_foldl_set_of_not_mem {α β γ : Type} [DecidableEq α]
    (f : γ → α) (g : γ → β) (ops : List γ) (d : List (α × β)) (k : α)
    (h : k ∉ ops.map f) :
    dictGet (ops.foldl (fun st o => dictSet st (f o) (g o)) d) k =
      dictGet d k := by
  induction ops generalizing d with
  | nil => rfl
  | cons o rest ih =>
    rw [List.foldl_cons]
    have hk : k ∉ rest.map f := fun hm =>
      h (List.mem_cons_of_mem _ hm)
    have hne : k ≠ f o := fun he =>
      h (he ▸ List.mem_cons_self (f o) (rest.map f))
    rw [ih _ hk, dictGet_set, if_neg hne]

theorem dictGet_foldl_set_mem {α β γ : Type} [DecidableEq α]
    (f : γ → α) (g : γ → β) (ops : List γ) :
    ∀ (d : List (α × β)) (o : γ), o ∈ ops → (ops.map f).Nodup →
    dictGet (ops.foldl (fun st o => dictSet st (f o) (g o)) d) (f o) =
      some (g o) := by
  induction ops with
  | nil => intro d o ho _; exact absurd ho (List.not_mem_nil o)
  | cons o0 rest ih =>
    intro d o ho hnd
    rw [List.foldl_cons]
    rw [List.map_cons] at hnd
    obtain ⟨h0, hrest⟩ := List.nodup_cons.mp hnd
    rcases List.mem_cons.mp ho with he | hm
    · subst he
      have hni : f o ∉ rest.map f := h0
      rw [dictGet_foldl_set_of_not_mem f g rest _ (f o) hni,
        dictGet_set, if_pos rfl]
    · exact ih _ o hm hrest

theorem dictPop_not_mem {α β : Type} [DecidableEq α] (d : List (α × β))
    (k : α) (h : k ∉ keysOf d) : dictPop d k = d := by
  induction d with
  | nil => rfl
  | cons a d ih =>
    rw [keysOf_cons] at h
    have h1 : a.1 ≠ k := fun he =>
      h (he ▸ List.mem_cons_self a.1 (keysOf d))
    have h2 : k ∉ keysOf d := fun hm => h (List.mem_cons_of_mem _ hm)
    rw [dictPop_cons, if_neg h1, ih h2]

theorem dictPop_length_mem {α β : Type} [DecidableEq α] (d : List (α × β))
    (k : α) (hk : k ∈ keysOf d) (hnd : (keysOf d).Nodup) :
    (dictPop d k).length + 1 = d.length := by
  induction d with
  | nil => exact absurd hk (List.not_mem_nil k)
  | cons a d ih =>
    rw [keysOf_cons] at hk hnd
    obtain ⟨ha, hd⟩ := List.nodup_cons.mp hnd
    rw [dictPop_cons]
    rcases List.mem_cons.mp hk with he | hm
    · rw [if_pos he.symm]
      have : k ∉ keysOf d := he ▸ ha
      rw [dictPop_not_mem d k this, List.length_cons]
    · have h1 : a.1 ≠ k := fun he2 => ha (he2 ▸ hm)
      rw [if_neg h1, List.length_cons, List.length_cons, ih hm hd]

theorem keysOf_foldl_set_disjoint {α β γ : Type} [DecidableEq α]
    (f : γ → α) (g : γ → β) (ops : List γ) :
    ∀ (d : List (α × β)), (ops.map f).Nodup →
    (∀ k ∈ ops.map f, k ∉ keysOf d) →
    keysOf (ops.foldl (fun st o => dictSet st (f o) (g o)) d) =
      keysOf d ++ ops.map f := by
  induction ops with
  | nil => intro d _ _; simp
  | cons o rest ih =>
    intro d hnd hdis
    rw [List.map_cons] at hnd
    obtain ⟨h0, hrest⟩ := List.nodup_cons.mp hnd
    rw [List.foldl_cons]
    have hno : f o ∉ keysOf d :=
      hdis (f o) (List.mem_cons_self (f o) (rest.map f))
    have hany : ¬ d.any (fun p => decide (p.1 = f o)) := fun hm =>
      hno ((any_key_iff d (f o)).mp hm)
    have hstep := keysOf_dictSet_new d (f o) (g o) hany
    rw [ih (dictSet d (f o) (g o)) hrest (by
      intro k hk
      rw [hstep]
      intro hm
      rcases List.mem_append.mp hm with h1 | h1
      · exact hdis k (List.mem_cons_of_mem _ hk) h1
      · rw [List.mem_singleton] at h1
        exact h0 (h1 ▸ hk)), hstep]
    simp [List.append_assoc]

theorem register_binding_max (s : MessageVariableProcessor) (tool : String)
    (v : Value) (vn : Option String) (fresh : String) :
    (s.register_binding tool v vn fresh).2.max_store_items =
      s.max_store_items := by
  rw [register_binding_eq]

/-- Claim C2: on a binding store of capacity C, over every sequence of
register operations the number of live bindings never exceeds C; an
insert when the insertion-order list is full evicts exactly its head —
strictly the oldest surviving binding by insertion order, never by access
recency (lookups are pure functions of the state and do not touch the
order); eviction is silent (the operation still returns normally, the
evicted key merely reads as absent); and inserting C+1 distinct bindings
into a fresh store evicts exactly the earliest-inserted one, leaving the
other C intact. -/
theorem C2_capacity_fifo_eviction (C : Nat) (s : MessageVariableProcessor)
    (hs : MVPReach s) (hcap : s.max_store_items = C) :
    s.store.length ≤ C ∧
    (∀ tool v vn fresh,
      (s.register_binding tool v vn fresh).2.store.length ≤ C) ∧
    (∀ tool v vn fresh, s.order.length = C → 0 < C →
      (s.register_binding tool v vn fresh).2.order =
        s.order.tail ++ [regKey tool vn fresh] ∧
      (∀ k0, s.order.head? = some k0 →
        dictGet (s.register_binding tool v vn fresh).2.store k0 = none)) ∧
    (∀ (pi2 pc : Nat) (ops : List (String × String × Value))
        (o0 : String × String × Value), 0 < C →
      ops.length = C + 1 → (ops.map opKey).Nodup → ops.head? = some o0 →
      (registerAll (MessageVariableProcessor.init C pi2 pc) ops).store.length
          = C ∧
      dictGet (registerAll (MessageVariableProcessor.init C pi2 pc) ops).store
          (opKey o0) = none ∧
      (∀ o ∈ ops.tail,
        dictGet
          (registerAll (MessageVariableProcessor.init C pi2 pc) ops).store
          (opKey o) = some o.2.2)) := by
  refine ⟨?_, ?_, ?_, ?_⟩
  · have h := storeInv_store_length s (mvpReach_storeInv s hs)
    omega
  · intro tool v vn fresh
    have h := storeInv_store_length _
      (mvpReach_storeInv _ (MVPReach.reg s tool v vn fresh hs))
    rwa [register_binding_max, hcap] at h
  · intro tool v vn fresh horder hpos
    have hd1 : s.order.length + 1 - s.max_store_items = 1 := by omega
    constructor
    · rw [register_binding_eq]
      simp only [hd1]
      rw [List.drop_append_of_le_length (by omega), List.drop_one]
    · intro k0 hk0
      cases horderc : s.order with
      | nil => rw [horderc] at hk0; exact absurd hk0 (by simp)
      | cons khd rest =>
        rw [horderc] at hk0
        simp only [List.head?_cons, Option.some.injEq] at hk0
        subst hk0
        have hd2 : (khd :: rest).length + 1 - s.max_store_items = 1 := by
          rw [← horderc]; exact hd1
        rw [register_binding_eq]
        simp only [horderc, List.cons_append, hd2]
        rw [show List.take 1
            (khd :: (rest ++ [regKey tool vn fresh])) = [khd] from rfl]
        rw [show List.foldl dictPop
            (dictSet s.store (regKey tool vn fresh) v) [khd] =
            dictPop (dictSet s.store (regKey tool vn fresh) v) khd from rfl]
        rw [dictGet_pop, if_pos rfl]
  · intro pi2 pc ops o0 hpos hlen hnd hhead
    rcases List.eq_nil_or_concat ops with hnil | ⟨front, last, hsplit⟩
    · rw [hnil] at hlen; simp at hlen
    · subst hsplit
      have hfrontlen : front.length = C := by
        rw [List.length_concat] at hlen; omega
      rw [List.concat_eq_append] at hlen hnd hhead ⊢
      cases front with
      | nil => simp at hfrontlen; omega
      | cons of0 front2 =>
        simp only [List.length_cons] at hfrontlen
        have ho0 : o0 = of0 := by
          rw [List.cons_append, List.head?_cons] at hhead
          exact ((Option.some.injEq _ _).mp hhead).symm
        subst ho0
        rw [List.map_append] at hnd
        have hndf : ((o0 :: front2).map opKey).Nodup :=
          (List.nodup_append.mp hnd).1
        have hdisj : List.Disjoint ((o0 :: front2).map opKey)
            ([last].map opKey) := (List.nodup_append.mp hnd).2.2
        have hlastni : opKey last ∉ (o0 :: front2).map opKey := by
          intro hm
          exact hdisj hm (by simp)
        have hfill := registerAll_no_evict (o0 :: front2)
          (MessageVariableProcessor.init C pi2 pc)
          (by
            simp only [MessageVariableProcessor.init, List.length_nil,
              List.length_cons]
            omega)
        obtain ⟨hord, hsto, hmax⟩ := hfill
        set sF := registerAll (MessageVariableProcessor.init C pi2 pc)
          (o0 :: front2) with hsF
        have hordlen : sF.order.length = C := by
          rw [hord]
          simp only [MessageVariableProcessor.init, List.nil_append,
            List.length_map, List.length_cons]
          omega
        have hstep : registerAll (MessageVariableProcessor.init C pi2 pc)
            ((o0 :: front2) ++ [last]) =
            (sF.register_binding last.1 last.2.2 (some last.2.1) "").2 := by
          simp [hsF, registerAll, List.foldl_append]
        have hkeylast : regKey last.1 (some last.2.1) "" = opKey last := rfl
        have hd1 : sF.order.length + 1 - sF.max_store_items = 1 := by
          rw [hordlen, hmax]
          simp only [MessageVariableProcessor.init]
          omega
        have hordc : sF.order = opKey o0 :: front2.map opKey := by
          rw [hord]
          simp [MessageVariableProcessor.init]
        have hstore2 : (sF.register_binding last.1 last.2.2
            (some last.2.1) "").2.store =
            dictPop (dictSet sF.store (opKey last) last.2.2) (opKey o0) := by
          rw [register_binding_eq]
          rw [show regKey last.1 (some last.2.1) "" = opKey last from rfl]
          rw [hd1]
          simp only [hordc, List.cons_append]
          rw [show List.take 1
              (opKey o0 :: (List.map opKey front2 ++ [opKey last])) =
              [opKey o0] from rfl]
          rfl
        have hkeysF : keysOf sF.store = (o0 :: front2).map opKey := by
          rw [hsto]
          have hk := keysOf_foldl_set_disjoint opKey
            (fun o => o.2.2) (o0 :: front2)
            (MessageVariableProcessor.init C pi2 pc).store hndf
            (by intro k _ hm; exact absurd hm (List.not_mem_nil k))
          simpa [MessageVariableProcessor.init, keysOf] using hk
        have hanyl : ¬ sF.store.any
            (fun p => decide (p.1 = opKey last)) := by
          intro hm
          exact hlastni (hkeysF ▸ (any_key_iff _ _).mp hm)
        refine ⟨?_, ?_, ?_⟩
        · rw [hstep, hstore2]
          have hkeys2 : keysOf (dictSet sF.store (opKey last) last.2.2) =
              ((o0 :: front2).map opKey) ++ [opKey last] := by
            rw [keysOf_dictSet_new _ _ _ hanyl, hkeysF]
          have hnd2 : (keysOf (dictSet sF.store (opKey last)
              last.2.2)).Nodup := by
            rw [hkeys2]
            simp only [List.map_cons, List.map_nil] at hnd ⊢
            exact hnd
          have hmem2 : opKey o0 ∈ keysOf (dictSet sF.store (opKey last)
              last.2.2) := by
            rw [hkeys2]
            exact List.mem_append.mpr (Or.inl (by simp))
          have hpoplen := dictPop_length_mem _ _ hmem2 hnd2
          have hsetlen : (dictSet sF.store (opKey last) last.2.2).length =
              sF.store.length + 1 := by
            rw [dictSet_length, if_neg hanyl]
          have hsF_len : sF.store.length = C := by
            have h1 : (keysOf sF.store).length = sF.store.length :=
              List.length_map _ _
            rw [hkeysF] at h1
            simp only [List.length_map, List.length_cons] at h1
            omega
          omega
        · rw [hstep, hstore2, dictGet_pop, if_pos rfl]
        · intro o hmo
          rw [List.cons_append, List.tail_cons] at hmo
          have hndf2 : opKey o0 ∉ front2.map opKey := by
            have := List.nodup_cons.mp (by
              simpa only [List.map_cons] using hndf)
            exact this.1
          have hne0 : opKey o ≠ opKey o0 := by
            intro he
            rcases List.mem_append.mp hmo with hm | hm
            · exact hndf2 (he ▸ List.mem_map.mpr ⟨o, hm, rfl⟩)
            · rw [List.mem_singleton] at hm
              subst hm
              exact hlastni (he ▸ List.mem_cons_self _ _)
          rw [hstep, hstore2, dictGet_pop, if_neg hne0, dictGet_set]
          rcases List.mem_append.mp hmo with hm | hm
          · have hnel : opKey o ≠ opKey last := by
              intro he
              exact hlastni (he ▸ List.mem_map.mpr
                ⟨o, List.mem_cons_of_mem o0 hm, rfl⟩)
            rw [if_neg hnel, hsto]
            exact dictGet_foldl_set_mem opKey (fun o => o.2.2)
              (o0 :: front2) _ o (List.mem_cons_of_mem o0 hm) hndf
          · rw [List.mem_singleton] at hm
            subst hm
            rw [if_pos rfl]

theorem C2_capacity_fifo_eviction_witness :
    (0 : Nat) < 2 ∧
    (registerAll (MessageVariableProcessor.init 2 50 2000)
      [("t", "a", Value.num 1), ("t", "b", Value.num 2),
       ("t", "c", Value.num 3)]).store.length = 2 ∧
    dictGet (registerAll (MessageVariableProcessor.init 2 50 2000)
      [("t", "a", Value.num 1), ("t", "b", Value.num 2),
       ("t", "c", Value.num 3)]).store ("t", "a") = none := by
  have h := (C2_capacity_fifo_eviction 2
    (MessageVariableProcessor.init 2 50 2000)
    (MVPReach.init 2 50 2000) rfl).2.2.2 50 2000
    [("t", "a", Value.num 1), ("t", "b", Value.num 2),
     ("t", "c", Value.num 3)]
    ("t", "a", Value.num 1) (by decide) rfl (by decide) rfl
  exact ⟨by decide, h.1, h.2.1⟩

/-- Claim C3 is refuted as stated: a register call can evict the binding
it has just written — here a store of capacity 1 whose single slot is the
very key being re-registered.  The second registration of `("T", "x")`
appends a second order entry, overflows the capacity, and the eviction
pass pops the first order entry, deleting the dict entry of the key just
written; the immediate lookup returns `None` (`Value.null`), not the
registered value. -/
theorem C3_counterexample :
    (((MessageVariableProcessor.init 1 50 2000).register_binding "T"
        (Value.str "a") (some "x") "").2.register_binding "T"
        (Value.str "b") (some "x") "").2.get_binding "T" "x" = Value.null ∧
    Value.null ≠ Value.str "b" :=
  ⟨rfl, fun h => Value.noConfusion h⟩

/-- Claim C3 (amended): register followed immediately by get, with no
intervening registration, returns the registered value, provided the
capacity is at least 1 and the registration itself does not evict the
fresh binding — that is, the key being registered does not occur among
the entries its own eviction pass flushes (in particular whenever the key
is fresh or the store is below capacity). -/
theorem C3_register_then_get (s : MessageVariableProcessor) (tool : String)
    (v : Value) (vn : Option String) (fresh : String)
    (hC : 1 ≤ s.max_store_items)
    (hkey : regKey tool vn fresh ∉
      s.order.take (s.order.length + 1 - s.max_store_items)) :
    ((s.register_binding tool v vn fresh).2).get_binding tool
      (s.register_binding tool v vn fresh).1 = v := by
  rw [register_binding_fst]
  unfold MessageVariableProcessor.get_binding
  rw [register_binding_eq]
  have hkey2 : (tool, (regKey tool vn fresh).2) = regKey tool vn fresh := by
    cases vn <;> rfl
  rw [hkey2]
  have htake : (s.order ++ [regKey tool vn fresh]).take
      (s.order.length + 1 - s.max_store_items) =
      s.order.take (s.order.length + 1 - s.max_store_items) := by
    rw [List.take_append_eq_append_take]
    have h0 : s.order.length + 1 - s.max_store_items - s.order.length = 0 :=
      by omega
    rw [h0, List.take_zero, List.append_nil]
  rw [htake, dictGet_foldl_pop, if_neg hkey, dictGet_set, if_pos rfl]
  rfl

theorem C3_register_then_get_witness :
    1 ≤ (MessageVariableProcessor.init 50 50 2000).max_store_items ∧
    regKey "execute_sql" none "123_abc" ∉
      (MessageVariableProcessor.init 50 50 2000).order.take
        ((MessageVariableProcessor.init 50 50 2000).order.length + 1 -
          (MessageVariableProcessor.init 50 50 2000).max_store_items) ∧
    (((MessageVariableProcessor.init 50 50 2000).register_binding
        "execute_sql" (Value.num 7) none "123_abc").2).get_binding
      "execute_sql"
      ((MessageVariableProcessor.init 50 50 2000).register_binding
        "execute_sql" (Value.num 7) none "123_abc").1 = Value.num 7 :=
  ⟨by decide, by decide,
    C3_register_then_get (MessageVariableProcessor.init 50 50 2000)
      "execute_sql" (Value.num 7) none "123_abc" (by decide) (by decide)⟩

/-- Claim C10: calling register_binding twice with the same (tool, var)
key overwrites the stored value in place while appending a second entry
for the key to the insertion-order list; a later capacity eviction that
reaches the first (older) order entry removes the dict entry outright, so
re-registration does not refresh the eviction position and the live
binding count can fall below the order-list length (concretely: capacity
2, keys T.x, T.x, U.y leave one live binding under two order entries,
with T.x unreadable although still listed). -/
theorem C10_duplicate_order_entries (s : MessageVariableProcessor)
    (tool var : String) (v1 v2 : Value) (f1 f2 : String)
    (hcap : s.order.length + 2 ≤ s.max_store_items) :
    (((s.register_binding tool v1 (some var) f1).2).register_binding tool
        v2 (some var) f2).2.store =
      dictSet (dictSet s.store (tool, var) v1) (tool, var) v2 ∧
    (((s.register_binding tool v1 (some var) f1).2).register_binding tool
        v2 (some var) f2).2.order =
      s.order ++ [(tool, var), (tool, var)] ∧
    (((s.register_binding tool v1 (some var) f1).2).register_binding tool
        v2 (some var) f2).2.get_binding tool var = v2 ∧
    (((s.register_binding tool v1 (some var) f1).2).register_binding tool
        v2 (some var) f2).2.store.length =
      ((s.register_binding tool v1 (some var) f1).2).store.length ∧
    (dictGet c10state.store ("T", "x") = none ∧
      ("T", "x") ∈ c10state.order ∧
      c10state.store.length = 1 ∧ c10state.order.length = 2) := by
  have hk : regKey tool (some var) f1 = (tool, var) := rfl
  have hk2 : regKey tool (some var) f2 = (tool, var) := rfl
  have h1 : (s.register_binding tool v1 (some var) f1).2 =
      { s with store := dictSet s.store (tool, var) v1,
               order := s.order ++ [(tool, var)] } := by
    rw [← hk]
    exact register_binding_no_evict s tool v1 (some var) f1 (by omega)
  have h2 : (((s.register_binding tool v1 (some var) f1).2).register_binding
      tool v2 (some var) f2).2 =
      { s with store := dictSet (dictSet s.store (tool, var) v1)
                 (tool, var) v2,
               order := (s.order ++ [(tool, var)]) ++ [(tool, var)] } := by
    rw [h1, ← hk2]
    exact register_binding_no_evict _ tool v2 (some var) f2 (by
      simp only [List.length_append, List.length_cons, List.length_nil]
      omega)
  refine ⟨?_, ?_, ?_, ?_, ?_⟩
  · rw [h2]
  · rw [h2]
    simp [List.append_assoc]
  · rw [h2]
    unfold MessageVariableProcessor.get_binding
    simp only
    rw [dictGet_set, if_pos rfl]
    rfl
  · rw [h2, h1]
    simp only
    rw [dictSet_length]
    have hmem : (tool, var) ∈ keysOf (dictSet s.store (tool, var) v1) := by
      have := dictGet_set s.store (tool, var) (tool, var) v1
      rw [if_pos rfl] at this
      by_contra hm
      rw [← dictGet_eq_none_iff] at hm
      rw [this] at hm
      exact Option.noConfusion hm
    rw [if_pos ((any_key_iff _ _).mpr hmem)]
  · exact ⟨rfl, by decide, rfl, rfl⟩

theorem C10_duplicate_order_entries_witness :
    (MessageVariableProcessor.init 50 50 2000).order.length + 2 ≤
      (MessageVariableProcessor.init 50 50 2000).max_store_items ∧
    ((((MessageVariableProcessor.init 50 50 2000).register_binding "T"
        (Value.str "one") (some "x") "").2).register_binding "T"
        (Value.str "two") (some "x") "").2.get_binding "T" "x" =
      Value.str "two" :=
  ⟨by decide,
    (C10_duplicate_order_entries (MessageVariableProcessor.init 50 50 2000)
      "T" "x" (Value.str "one") (Value.str "two") "" ""
      (by decide)).2.2.1⟩

/-! ## Placeholder-scanner lemmas -/

theorem eatLit_eq (c : Char) (cs r : List Char) (h : eatLit c cs = some r) :
    cs = c :: r := by
  cases cs with
  | nil => exact Option.noConfusion h
  | cons x rest =>
    simp only [eatLit] at h
    by_cases hx : x = c
    · rw [if_pos hx] at h
      injection h with h2
      rw [hx, h2]
    · rw [if_neg hx] at h
      exact Option.noConfusion h

theorem dropSpaces_eq (cs : List Char) :
    cs = cs.takeWhile isPySpace ++ dropSpaces cs := by
  rw [dropSpaces, List.takeWhile_append_dropWhile]

theorem eatWhile1_eq (p : Char → Bool) (cs t r : List Char)
    (h : eatWhile1 p cs = some (t, r)) : cs = t ++ r := by
  simp only [eatWhile1] at h
  by_cases he : (cs.takeWhile p).isEmpty
  · rw [if_pos he] at h
    exact Option.noConfusion h
  · rw [if_neg he] at h
    injection h with h2
    have h3 := (Prod.mk.injEq _ _ _ _).mp h2
    rw [← h3.1, ← h3.2, List.takeWhile_append_dropWhile]

theorem matchAt_consumes (cs : List Char) (tool var : String)
    (rest : List Char) (h : matchAt cs = some (tool, var, rest)) :
    ∃ pre, pre ≠ [] ∧ cs = pre ++ rest := by
  unfold matchAt at h
  cases h0 : eatLit '{' cs with
  | none => simp only [h0] at h; exact Option.noConfusion h
  | some r0 =>
  simp only [h0] at h
  cases h1 : eatLit '"' (dropSpaces r0) with
  | none => simp only [h1] at h; exact Option.noConfusion h
  | some r1 =>
  simp only [h1] at h
  cases h2 : eatWhile1 isToolChar r1 with
  | none => simp only [h2] at h; exact Option.noConfusion h
  | some tr =>
  obtain ⟨tl, r2⟩ := tr
  simp only [h2] at h
  cases h3 : eatLit '"' r2 with
  | none => simp only [h3] at h; exact Option.noConfusion h
  | some r3 =>
  simp only [h3] at h
  cases h4 : eatLit ':' (dropSpaces r3) with
  | none => simp only [h4] at h; exact Option.noConfusion h
  | some r4 =>
  simp only [h4] at h
  cases h5 : eatLit '"' (dropSpaces r4) with
  | none => simp only [h5] at h; exact Option.noConfusion h
  | some r5 =>
  simp only [h5] at h
  cases h6 : eatWhile1 isVarChar r5 with
  | none => simp only [h6] at h; exact Option.noConfusion h
  | some vrr =>
  obtain ⟨vr, r6⟩ := vrr
  simp only [h6] at h
  cases h7 : eatLit '"' r6 with
  | none => simp only [h7] at h; exact Option.noConfusion h
  | some r7 =>
  simp only [h7] at h
  cases h8 : eatLit '}' (dropSpaces r7) with
  | none => simp only [h8] at h; exact Option.noConfusion h
  | some r8 =>
  simp only [h8] at h
  simp only [Option.some.injEq, Prod.mk.injEq] at h
  obtain ⟨_, _, hrest⟩ := h
  have hd7 : ∃ p, r7 = p ++ r8 := by
    refine ⟨r7.takeWhile isPySpace ++ ['}'], ?_⟩
    conv_lhs => rw [dropSpaces_eq r7]
    rw [eatLit_eq _ _ _ h8]
    simp
  obtain ⟨p7, hp7⟩ := hd7
  have hd6 : ∃ p, r6 = p ++ r8 :=
    ⟨'"' :: p7, by rw [eatLit_eq _ _ _ h7, hp7]; rfl⟩
  obtain ⟨p6, hp6⟩ := hd6
  have hd5 : ∃ p, r5 = p ++ r8 :=
    ⟨vr ++ p6, by rw [eatWhile1_eq _ _ _ _ h6, hp6, List.append_assoc]⟩
  obtain ⟨p5, hp5⟩ := hd5
  have hdds4 : ∃ p, dropSpaces r4 = p ++ r8 :=
    ⟨'"' :: p5, by rw [eatLit_eq _ _ _ h5, hp5]; rfl⟩
  obtain ⟨pd4, hpd4⟩ := hdds4
  have hd4 : ∃ p, r4 = p ++ r8 := by
    refine ⟨r4.takeWhile isPySpace ++ pd4, ?_⟩
    conv_lhs => rw [dropSpaces_eq r4]
    rw [hpd4, List.append_assoc]
  obtain ⟨p4, hp4⟩ := hd4
  have hdds3 : ∃ p, dropSpaces r3 = p ++ r8 :=
    ⟨':' :: p4, by rw [eatLit_eq _ _ _ h4, hp4]; rfl⟩
  obtain ⟨pd3, hpd3⟩ := hdds3
  have hd3 : ∃ p, r3 = p ++ r8 := by
    refine ⟨r3.takeWhile isPySpace ++ pd3, ?_⟩
    conv_lhs => rw [dropSpaces_eq r3]
    rw [hpd3, List.append_assoc]
  obtain ⟨p3, hp3⟩ := hd3
  have hd2 : ∃ p, r2 = p ++ r8 :=
    ⟨'"' :: p3, by rw [eatLit_eq _ _ _ h3, hp3]; rfl⟩
  obtain ⟨p2, hp2⟩ := hd2
  have hd1 : ∃ p, r1 = p ++ r8 :=
    ⟨tl ++ p2, by rw [eatWhile1_eq _ _ _ _ h2, hp2, List.append_assoc]⟩
  obtain ⟨p1, hp1⟩ := hd1
  have hdds0 : ∃ p, dropSpaces r0 = p ++ r8 :=
    ⟨'"' :: p1, by rw [eatLit_eq _ _ _ h1, hp1]; rfl⟩
  obtain ⟨pd0, hpd0⟩ := hdds0
  have hd0 : ∃ p, r0 = p ++ r8 := by
    refine ⟨r0.takeWhile isPySpace ++ pd0, ?_⟩
    conv_lhs => rw [dropSpaces_eq r0]
    rw [hpd0, List.append_assoc]
  obtain ⟨p0, hp0⟩ := hd0
  refine ⟨'{' :: p0, by simp, ?_⟩
  rw [← hrest, eatLit_eq _ _ _ h0, hp0]
  rfl

theorem replacer_verbatim (s : MessageVariableProcessor) (now : Nat)
    (tool var : String) (matched : List Char)
    (h : tokenUnresolved s tool var = true) :
    placeholderReplacer s now tool var matched = matched := by
  unfold tokenUnresolved at h
  unfold placeholderReplacer
  by_cases h1 : (!s.known_tools.isEmpty && !s.known_tools.contains tool)
  · rw [if_pos h1]
  · rw [if_neg h1]
    rw [Bool.or_eq_true] at h
    rcases h with h | h
    · exact absurd h h1
    · cases hv : s.get_binding tool var with
      | null => simp
      | bool b => rw [hv] at h; simp at h
      | num n => rw [hv] at h; simp at h
      | str t => rw [hv] at h; simp at h
      | arr xs => rw [hv] at h; simp at h
      | obj kvs => rw [hv] at h; simp at h

theorem tails_transfer (c : Char) (cs2 : List Char) (P : List Char → Prop)
    (h : ∀ suffix ∈ (c :: cs2).tails, P suffix) :
    ∀ suffix ∈ cs2.tails, P suffix := by
  intro suf hm
  exact h suf ((List.mem_tails _ _).mpr
    (((List.mem_tails _ _).mp hm).trans (List.suffix_cons c cs2)))

theorem tails_transfer_append (pre rest : List Char) (P : List Char → Prop)
    (h : ∀ suffix ∈ (pre ++ rest).tails, P suffix) :
    ∀ suffix ∈ rest.tails, P suffix := by
  intro suf hm
  exact h suf ((List.mem_tails _ _).mpr
    (((List.mem_tails _ _).mp hm).trans ⟨pre, rfl⟩))

theorem subPlaceholders_id_of_none (s : MessageVariableProcessor)
    (now : Nat) : ∀ (fuel : Nat) (cs : List Char),
    (∀ suffix ∈ cs.tails, matchAt suffix = none) →
    subPlaceholders s now fuel cs = cs := by
  intro fuel
  induction fuel with
  | zero => intro cs _; rfl
  | succ fuel ih =>
    intro cs h
    cases cs with
    | nil => rfl
    | cons c cs2 =>
      have h0 : matchAt (c :: cs2) = none :=
        h (c :: cs2) ((List.mem_tails _ _).mpr (List.suffix_refl _))
      simp only [subPlaceholders, h0]
      rw [ih cs2 (tails_transfer c cs2 _ h)]

theorem subPlaceholders_id_of_unresolved (s : MessageVariableProcessor)
    (now : Nat) : ∀ (fuel : Nat) (cs : List Char), cs.length ≤ fuel →
    (∀ suffix ∈ cs.tails, matchUnresolved s suffix = true) →
    subPlaceholders s now fuel cs = cs := by
  intro fuel
  induction fuel with
  | zero => intro cs _ _; rfl
  | succ fuel ih =>
    intro cs hlen h
    cases cs with
    | nil => rfl
    | cons c cs2 =>
      cases hm : matchAt (c :: cs2) with
      | none =>
        simp only [subPlaceholders, hm]
        rw [ih cs2 (by
          simp only [List.length_cons] at hlen
          omega) (tails_transfer c cs2 _ h)]
      | some tvr =>
        obtain ⟨tool, var, rest⟩ := tvr
        have hself := h (c :: cs2)
          ((List.mem_tails _ _).mpr (List.suffix_refl _))
        unfold matchUnresolved at hself
        rw [hm] at hself
        obtain ⟨pre, hpre, heq⟩ := matchAt_consumes _ _ _ _ hm
        simp only [subPlaceholders, hm]
        rw [replacer_verbatim s now tool var _ hself]
        have hlenpre : cs2.length + 1 = pre.length + rest.length := by
          have hcg := congrArg List.length heq
          simpa [List.length_append] using hcg
        have htake : (c :: cs2).take ((c :: cs2).length - rest.length) =
            pre := by
          rw [heq, List.length_append]
          have he2 : pre.length + rest.length - rest.length = pre.length :=
            by omega
          rw [he2, List.take_left]
        rw [htake]
        have hple : 1 ≤ pre.length := by
          cases pre with
          | nil => exact absurd rfl hpre
          | cons a l => simp
        rw [ih rest (by
          simp only [List.length_cons] at hlen
          omega) (by
          have := tails_transfer_append pre rest
            (fun suf => matchUnresolved s suf = true)
          exact this (by rw [← heq]; exact h))]
        exact heq.symm

theorem flatMap_map_lit (cs : List Char) (f : Seg → List Char)
    (hf : ∀ c, f (Seg.lit c) = [c]) : (cs.map Seg.lit).flatMap f = cs := by
  induction cs with
  | nil => rfl
  | cons c cs ih => simp [List.map_cons, List.flatMap_cons, hf, ih]

theorem scanSegs_source : ∀ (fuel : Nat) (cs : List Char),
    (scanSegs fuel cs).flatMap Seg.source = cs := by
  intro fuel
  induction fuel with
  | zero => intro cs; exact flatMap_map_lit cs Seg.source (fun c => rfl)
  | succ fuel ih =>
    intro cs
    cases cs with
    | nil => rfl
    | cons c cs2 =>
      cases hm : matchAt (c :: cs2) with
      | none =>
        simp only [scanSegs, hm, List.flatMap_cons]
        rw [ih cs2]
        rfl
      | some tvr =>
        obtain ⟨tool, var, rest⟩ := tvr
        obtain ⟨pre, hpre, heq⟩ := matchAt_consumes _ _ _ _ hm
        simp only [scanSegs, hm, List.flatMap_cons]
        rw [ih rest]
        show (c :: cs2).take ((c :: cs2).length - rest.length) ++ rest =
          c :: cs2
        rw [heq, List.length_append]
        have he2 : pre.length + rest.length - rest.length = pre.length := by
          omega
        rw [he2, List.take_left]

theorem subPlaceholders_eq_render (s : MessageVariableProcessor)
    (now : Nat) : ∀ (fuel : Nat) (cs : List Char),
    subPlaceholders s now fuel cs =
      (scanSegs fuel cs).flatMap (Seg.render s now) := by
  intro fuel
  induction fuel with
  | zero =>
    intro cs
    exact (flatMap_map_lit cs (Seg.render s now) (fun c => rfl)).symm
  | succ fuel ih =>
    intro cs
    cases cs with
    | nil => rfl
    | cons c cs2 =>
      cases hm : matchAt (c :: cs2) with
      | none =>
        simp only [subPlaceholders, scanSegs, hm, List.flatMap_cons]
        rw [ih cs2]
        rfl
      | some tvr =>
        obtain ⟨tool, var, rest⟩ := tvr
        simp only [subPlaceholders, scanSegs, hm, List.flatMap_cons]
        rw [ih rest]
        rfl

/-- Claim C4: placeholder resolution never raises (it is a total
function of the state and text) and never removes or alters content
outside matched placeholder tokens, on every input text: the scan
decomposes the text exactly into characters outside matches and matched
tokens (conjunct 1: the segments concatenate back to the input, so
nothing is dropped), the output is exactly the segment-by-segment
rendering of that decomposition (conjunct 2), a character outside every
match renders verbatim (conjunct 3), a matched token whose binding is
absent (evicted, never registered, or mismatched key) or whose tool a
nonempty allow-list excludes renders as its literal substring (conjunct
4), and consequently resolve is the identity both when every token in
the text is unresolved and when the text contains no matching token at
all (conjuncts 5 and 6). -/
theorem C4_resolve_conservative (s : MessageVariableProcessor) (now : Nat)
    (text : String) :
    ((scanSegs text.data.length text.data).flatMap Seg.source =
      text.data) ∧
    ((s.resolve_placeholders_in_text now (some text)).data =
      (scanSegs text.data.length text.data).flatMap (Seg.render s now)) ∧
    (∀ c, Seg.render s now (Seg.lit c) = [c]) ∧
    (∀ tool var matched, tokenUnresolved s tool var = true →
      Seg.render s now (Seg.tok tool var matched) = matched) ∧
    ((∀ suffix ∈ text.data.tails, matchUnresolved s suffix = true) →
      s.resolve_placeholders_in_text now (some text) = text) ∧
    ((∀ suffix ∈ text.data.tails, matchAt suffix = none) →
      s.resolve_placeholders_in_text now (some text) = text) := by
  refine ⟨scanSegs_source text.data.length text.data, ?_, fun c => rfl,
    ?_, ?_, ?_⟩
  · unfold MessageVariableProcessor.resolve_placeholders_in_text
    by_cases ht : text = ""
    · subst ht; rfl
    · simp only [if_neg ht]
      exact subPlaceholders_eq_render s now text.data.length text.data
  · intro tool var matched h
    exact replacer_verbatim s now tool var matched h
  · intro h
    unfold MessageVariableProcessor.resolve_placeholders_in_text
    by_cases ht : text = ""
    · simp [ht]
    · simp only [if_neg ht,
        subPlaceholders_id_of_unresolved s now text.data.length text.data
          (Nat.le_refl _) h]
  · intro h
    unfold MessageVariableProcessor.resolve_placeholders_in_text
    by_cases ht : text = ""
    · simp [ht]
    · simp only [if_neg ht,
        subPlaceholders_id_of_none s now text.data.length text.data h]

theorem C4_resolve_conservative_witness :
    (∀ suffix ∈ ("result: \x7b\"execute_sql\":\"v1\"\x7d" :
        String).data.tails,
      matchUnresolved (MessageVariableProcessor.init 50 50 2000)
        suffix = true) ∧
    (MessageVariableProcessor.init 50 50 2000).resolve_placeholders_in_text
      0 (some "result: \x7b\"execute_sql\":\"v1\"\x7d") =
      "result: \x7b\"execute_sql\":\"v1\"\x7d" ∧
    tokenUnresolved c4mixedState "execute_sql" "dead" = true ∧
    Seg.render c4mixedState 0 (Seg.tok "execute_sql" "dead"
        ("\x7b\"execute_sql\":\"dead\"\x7d" : String).data) =
      ("\x7b\"execute_sql\":\"dead\"\x7d" : String).data ∧
    c4mixedState.resolve_placeholders_in_text 0
      (some
        "A \x7b\"execute_sql\":\"v1\"\x7d B \x7b\"execute_sql\":\"dead\"\x7d C") =
      "A 5 B \x7b\"execute_sql\":\"dead\"\x7d C" :=
  ⟨by decide,
   (C4_resolve_conservative (MessageVariableProcessor.init 50 50 2000) 0
     "result: \x7b\"execute_sql\":\"v1\"\x7d").2.2.2.2.1 (by decide),
   by decide,
   (C4_resolve_conservative c4mixedState 0 "").2.2.2.1 "execute_sql"
     "dead" ("\x7b\"execute_sql\":\"dead\"\x7d" : String).data
     (by decide),
   by decide⟩

/-- Claim C5 is refuted as stated: registering under the tool name "sql"
does return a name of the shape sql_<token>, but resolving the
placeholder yields the generic JSON serialisation `[{"x": 1}]` — the
tabular HTML rendering is reserved for the tool name "execute_sql"
(`if tool == "execute_sql"` in the replacer), so no table markup is
produced for "sql". -/
theorem C5_counterexample :
    ((MessageVariableProcessor.init 50 50 2000).register_binding "sql"
      c5val none "1700000000000_ab12cd34").1 =
      "sql_1700000000000_ab12cd34" ∧
    ((MessageVariableProcessor.init 50 50 2000).register_binding "sql"
      c5val none "1700000000000_ab12cd34").2.resolve_placeholders_in_text
      1700000000001
      (some "\x7b\"sql\":\"sql_1700000000000_ab12cd34\"\x7d") =
      "[\x7b\"x\": 1\x7d]" ∧
    containsSub ("[\x7b\"x\": 1\x7d]").data "<table".data = false := by
  refine ⟨rfl, by decide, by decide⟩

/-- Claim C5 (amended): the designated tabular-result tool is
"execute_sql".  Registering `[{"x": 1}]` under "execute_sql" returns a
generated name of the shape execute_sql_<token> (the token being the
millisecond/uuid suffix), and resolving the placeholder text for that
name yields HTML table markup containing the header cell for "x" and the
data cell for 1. -/
theorem C5_execute_sql_table_markup :
    (∀ fresh : String,
      ((MessageVariableProcessor.init 50 50 2000).register_binding
        "execute_sql" c5val none fresh).1 = "execute_sql_" ++ fresh) ∧
    containsSub
      (((MessageVariableProcessor.init 50 50 2000).register_binding
        "execute_sql" c5val none
        "1700000000000_ab12cd34").2.resolve_placeholders_in_text
        1700000000001
        (some
          "\x7b\"execute_sql\":\"execute_sql_1700000000000_ab12cd34\"\x7d")).data
      "<table".data = true ∧
    containsSub
      (((MessageVariableProcessor.init 50 50 2000).register_binding
        "execute_sql" c5val none
        "1700000000000_ab12cd34").2.resolve_placeholders_in_text
        1700000000001
        (some
          "\x7b\"execute_sql\":\"execute_sql_1700000000000_ab12cd34\"\x7d")).data
      "<th>x</th>".data = true ∧
    containsSub
      (((MessageVariableProcessor.init 50 50 2000).register_binding
        "execute_sql" c5val none
        "1700000000000_ab12cd34").2.resolve_placeholders_in_text
        1700000000001
        (some
          "\x7b\"execute_sql\":\"execute_sql_1700000000000_ab12cd34\"\x7d")).data
      "<td data-value=\"1\">1</td>".data = true := by
  refine ⟨?_, by decide, by decide, by decide⟩
  intro fresh
  rw [register_binding_fst]
  rw [show (regKey "execute_sql" none fresh).2 =
    "execute_sql" ++ "_" ++ fresh from rfl]
  rw [show ("execute_sql" ++ "_" : String) = "execute_sql_" from rfl]

/-- Claim C6: the preview embedded in a lightweight payload never exceeds
the configured bounds — at most `preview_max_items` (default 50) elements
of a list, at most `preview_max_chars` (default 2000) characters of a
string, and for a mapping a shallow truncation to at most 20 entries
whose list/str values are cut to the same bounds; and the payload built
with `include_preview` embeds exactly `_make_preview` of the value under
`variable_binding.preview`. -/
theorem C6_preview_bounded (s : MessageVariableProcessor)
    (tool var : String) (v : Value) :
    previewBounded s (s.make_preview v) ∧
    valueGet ((valueGet (s.build_lightweight_payload_value tool var v true)
      "variable_binding").getD Value.null) "preview" =
      some (s.make_preview v) := by
  constructor
  · cases v with
    | null => trivial
    | bool b => trivial
    | num n => trivial
    | str t =>
      show (strTake t s.preview_max_chars).length ≤ s.preview_max_chars
      simp only [strTake, String.length, List.length_take]
      omega
    | arr xs =>
      show (xs.take s.preview_max_items).length ≤ s.preview_max_items
      simp only [List.length_take]
      omega
    | obj kvs =>
      constructor
      · simp only [List.length_map, List.length_take]
        omega
      · intro kv hm
        obtain ⟨kv0, hkv0, he⟩ := List.mem_map.mp hm
        cases h2 : kv0.2 with
        | arr l =>
          rw [h2] at he
          rw [← he]
          simp only [List.length_take]
          omega
        | str t =>
          rw [h2] at he
          rw [← he]
          simp only [strTake, String.length, List.length_take]
          omega
        | null => rw [h2] at he; rw [← he]; trivial
        | bool b => rw [h2] at he; rw [← he]; trivial
        | num n => rw [h2] at he; rw [← he]; trivial
        | obj kvs2 => rw [h2] at he; rw [← he]; trivial
  · rfl

/-- Claim C8 is refuted as stated: dispatching an unregistered tool name
does produce a structured unknown-tool payload and never raises, but it
does not yield any ok=false flag — `execute_tool` returns only a
`(tool_name, result_string)` pair, so the unknown-tool outcome is
indistinguishable from a successful handler (`ok=true`) that happens to
return the same payload text.  Here the empty registry and a registry
whose handler for "t" succeeds with that text produce identical
results. -/
theorem C8_counterexample :
    ToolRegistry.execute_tool ⟨[]⟩ "t" (.obj []) (.obj []) =
      ToolRegistry.execute_tool ⟨[("t", impostorHandler)]⟩ "t"
        (.obj []) (.obj []) ∧
    impostorHandler.execute (.obj []) (.obj []) =
      .ok (true, unknownToolPayload "t") := by
  exact ⟨rfl, rfl⟩

/-- Claim C8 (amended): dispatching a tool name that is not registered
returns normally (never an exception — `execute_tool` is a total function
into plain pairs) with the structured unknown-tool error payload
`{"error": "未知的工具：<name>"}` paired with the tool name; no separate
ok flag is part of the result. -/
theorem C8_unknown_tool_payload (r : ToolRegistry) (tool_name : String)
    (args context : Value) (h : r.get_handler tool_name = none) :
    r.execute_tool tool_name args context =
      (tool_name, unknownToolPayload tool_name) := by
  unfold ToolRegistry.execute_tool
  rw [h]

theorem C8_unknown_tool_payload_witness :
    (ToolRegistry.get_handler ⟨[]⟩ "missing_tool" = none) ∧
    ToolRegistry.execute_tool ⟨[]⟩ "missing_tool" (.obj []) (.obj []) =
      ("missing_tool", unknownToolPayload "missing_tool") :=
  ⟨rfl, C8_unknown_tool_payload ⟨[]⟩ "missing_tool" (.obj []) (.obj []) rfl⟩

/-- Claim C9: `ToolRegistry.execute_tool` is total — for every registry,
tool name, argument dict and context it returns a `(tool_name,
result_string)` pair (the return type; nothing escapes): a raising
handler is converted to the structured error JSON
`{"error": "工具执行失败：<e>"}`, an unknown name to the unknown-tool
payload, and the boolean success flag of a handler is discarded — a
handler-reported failure (`ok=false`) reaches the caller in exactly the
same shape as a success, with no flag distinguishing them. -/
theorem C9_execute_tool_total_flag_discarded (r : ToolRegistry)
    (tool_name : String) (args context : Value) :
    (r.get_handler tool_name = none →
      r.execute_tool tool_name args context =
        (tool_name, unknownToolPayload tool_name)) ∧
    (∀ handler e, r.get_handler tool_name = some handler →
      handler.execute args context = .error e →
      r.execute_tool tool_name args context =
        (tool_name, toolFailedPayload e)) ∧
    (∀ handler b res, r.get_handler tool_name = some handler →
      handler.execute args context = .ok (b, res) →
      r.execute_tool tool_name args context = (tool_name, res)) := by
  refine ⟨?_, ?_, ?_⟩
  · intro h
    unfold ToolRegistry.execute_tool
    rw [h]
  · intro handler e hh he
    unfold ToolRegistry.execute_tool
    simp only [hh, he]
  · intro handler b res hh he
    unfold ToolRegistry.execute_tool
    simp only [hh, he]

theorem C9_execute_tool_total_flag_discarded_witness :
    (ToolRegistry.get_handler ⟨[("t", impostorHandler)]⟩ "t" =
      some impostorHandler) ∧
    impostorHandler.execute (.obj []) (.obj []) =
      .ok (true, unknownToolPayload "t") ∧
    ToolRegistry.execute_tool ⟨[("t", impostorHandler)]⟩ "t"
      (.obj []) (.obj []) = ("t", unknownToolPayload "t") :=
  ⟨rfl, rfl,
    (C9_execute_tool_total_flag_discarded ⟨[("t", impostorHandler)]⟩ "t"
      (.obj []) (.obj [])).2.2 impostorHandler true
      (unknownToolPayload "t") rfl rfl⟩

/-- Claim C1: with a gateway whose every tools-enabled response requests
another tool call, the loop never terminates naturally; after
`maxRounds` rounds it issues exactly one additional gateway call with
tools disabled on the transcript extended by the directive message (the
run equals `forceFinalAnswer` on some transcript, whose body makes a
single disabled-tools call), and the run always produces `.ok` with a
final message — never an exception and never divergence (the loop is a
total function of the round budget).  If that final call raises `e`, the
result is the synthetic terminal `MockResponse` message carrying the
error text instead of the propagated failure. -/
theorem C1_loop_forced_finalization
    (gw : Bool → List ChatMsg → Except String ModelMessage)
    (execTC : ToolCall → Except String (String × String))
    (hdrive : ∀ ms, ∃ m, gw true ms = .ok m ∧ noToolCalls m = false) :
    ∀ (maxRounds : Nat) (msgs : List ChatMsg),
    ∃ ms2 final,
      handle_chat_with_tools gw execTC maxRounds msgs =
        forceFinalAnswer gw ms2 ∧
      handle_chat_with_tools gw execTC maxRounds msgs = .ok final ∧
      (∀ e, gw false (ms2 ++ [finalDirectiveMsg]) = .error e →
        final = mockFinalMessage e ∧
        final.content =
          some ("达到最大工具调用轮数，且获取最终响应时出错: " ++ e) ∧
        final.tool_calls = none) := by
  intro maxRounds
  induction maxRounds with
  | zero =>
    intro msgs
    refine ⟨msgs, ?_⟩
    cases hg : gw false (msgs ++ [finalDirectiveMsg]) with
    | ok m =>
      refine ⟨m, rfl, ?_, ?_⟩
      · show forceFinalAnswer gw msgs = .ok m
        unfold forceFinalAnswer
        rw [hg]
      · intro e he
        exact Except.noConfusion he
    | error e =>
      refine ⟨mockFinalMessage e, rfl, ?_, ?_⟩
      · show forceFinalAnswer gw msgs = .ok (mockFinalMessage e)
        unfold forceFinalAnswer
        rw [hg]
      · intro e2 he2
        injection he2 with he3
        subst he3
        exact ⟨rfl, rfl, rfl⟩
  | succ n ih =>
    intro msgs
    obtain ⟨m, hgw, hcalls⟩ := hdrive msgs
    have hstep : handle_chat_with_tools gw execTC (n + 1) msgs =
        handle_chat_with_tools gw execTC n
          (msgs ++ [ChatMsg.assistantCalls (m.tool_calls.getD [])]
            ++ (m.tool_calls.getD []).map (toolResponseMsg execTC)) := by
      simp [handle_chat_with_tools, hgw, hcalls]
    rw [hstep]
    exact ih _

theorem C1_loop_forced_finalization_witness :
    (∀ ms, ∃ m, alwaysCallGw true ms = .ok m ∧ noToolCalls m = false) ∧
    (∃ ms2 final,
      handle_chat_with_tools alwaysCallGw okExec 3 [] =
        forceFinalAnswer alwaysCallGw ms2 ∧
      handle_chat_with_tools alwaysCallGw okExec 3 [] = .ok final ∧
      (∀ e, alwaysCallGw false (ms2 ++ [finalDirectiveMsg]) = .error e →
        final = mockFinalMessage e ∧
        final.content =
          some ("达到最大工具调用轮数，且获取最终响应时出错: " ++ e) ∧
        final.tool_calls = none)) :=
  ⟨fun _ => ⟨_, rfl, rfl⟩,
    C1_loop_forced_finalization alwaysCallGw okExec
      (fun _ => ⟨_, rfl, rfl⟩) 3 []⟩

/-! ## Fan-out pipeline lemmas -/

theorem fanUnits_eq_from (outline : List (List String)) :
    fanUnits outline = fanUnitsFrom 0 outline := rfl

theorem fanUnitsFrom_cons (n : Nat) (sec : List String)
    (rest : List (List String)) :
    fanUnitsFrom n (sec :: rest) =
      sec.enum.map (fun sub => (n, sub.1, sub.2)) ++
        fanUnitsFrom (n + 1) rest := by
  simp [fanUnitsFrom, List.enumFrom_cons]

theorem fanUnitsFrom_fst_ge (outline : List (List String)) :
    ∀ (n : Nat), ∀ u ∈ fanUnitsFrom n outline, n ≤ u.1 := by
  induction outline with
  | nil => intro n u hu; simp [fanUnitsFrom] at hu
  | cons sec rest ih =>
    intro n u hu
    rw [fanUnitsFrom_cons] at hu
    rcases List.mem_append.mp hu with hm | hm
    · obtain ⟨sub, _, he⟩ := List.mem_map.mp hm
      rw [← he]
    · have := ih (n + 1) u hm
      omega

theorem fanUnitsFrom_pos_nodup (outline : List (List String)) :
    ∀ (n : Nat), ((fanUnitsFrom n outline).map fanPos).Nodup := by
  induction outline with
  | nil => intro n; simp [fanUnitsFrom]
  | cons sec rest ih =>
    intro n
    rw [fanUnitsFrom_cons, List.map_append]
    rw [List.nodup_append]
    refine ⟨?_, ih (n + 1), ?_⟩
    · have he : (sec.enum.map (fun sub => (n, sub.1, sub.2))).map fanPos =
          (sec.enum.map Prod.fst).map (fun j => (n, j)) := by
        rw [List.map_map, List.map_map]
        rfl
      rw [he, show sec.enum = sec.enumFrom 0 from rfl,
        List.enumFrom_map_fst]
      exact (List.nodup_range' 0 sec.length).map
        (fun a b hab => ((Prod.mk.injEq _ _ _ _).mp hab).2)
    · intro x hx hx2
      obtain ⟨u, hu, heu⟩ := List.mem_map.mp hx
      obtain ⟨sub, _, he2⟩ := List.mem_map.mp hu
      obtain ⟨u2, hu2, heu2⟩ := List.mem_map.mp hx2
      have hge := fanUnitsFrom_fst_ge rest (n + 1) u2 hu2
      have hx1 : x.1 = n := by rw [← heu, ← he2]; rfl
      have hx1b : x.1 = u2.1 := by rw [← heu2]; rfl
      omega

theorem fanUnits_keys_nodup (outline : List (List String)) :
    ((fanUnits outline).map fanKey).Nodup := by
  have he : (fanUnits outline).map fanKey =
      ((fanUnits outline).map fanPos).map (fun p => contentKey p.1 p.2) := by
    simp [List.map_map, fanKey, fanPos, Function.comp]
  rw [he]
  refine ((fanUnits_eq_from outline ▸ fanUnitsFrom_pos_nodup outline 0)).map ?_
  intro a b hab
  obtain ⟨h1, h2⟩ := contentKey_inj a.1 a.2 b.1 b.2 hab
  exact Prod.ext h1 h2

theorem filterMap_eq_map_of_some {α β : Type} (l : List α)
    (f : α → Option β) (g : α → β) (h : ∀ x ∈ l, f x = some (g x)) :
    l.filterMap f = l.map g := by
  induction l with
  | nil => rfl
  | cons a l ih =>
    rw [List.filterMap_cons, h a (List.mem_cons_self a l), List.map_cons,
      ih (fun x hx => h x (List.mem_cons_of_mem a hx))]

/-- Claim C7: for every outline of content units, however the collected
`(content_key, result)` pairs are ordered on completion (any permutation
of the submitted units' results), reassembly fills each slot by its
position key: the output equals the per-unit results in submission
order, its length equals the number of units, and a unit whose
generation raised yields the degraded placeholder slide in its own slot
while the batch survives. -/
theorem C7_fanout_assembly (outline : List (List String))
    (gen : Nat → Nat → Except String Slide)
    (results : List (String × Slide))
    (hperm : results.Perm (fanOutResults outline gen)) :
    assembleContents outline (buildContentMap results) =
      (fanUnits outline).map
        (fun u => generate_slide_content (gen u.1 u.2.1) u.2.2) ∧
    (assembleContents outline (buildContentMap results)).length =
      (fanUnits outline).length ∧
    (∀ i j t e, (i, j, t) ∈ fanUnits outline → gen i j = .error e →
      dictGet (buildContentMap results) (contentKey i j) =
        some (degradedSlide t e)) := by
  have hbasekeys : (fanOutResults outline gen).map Prod.fst =
      (fanUnits outline).map fanKey := by
    unfold fanOutResults
    rw [List.map_map]
    rfl
  have hndres : (results.map Prod.fst).Nodup := by
    have hp := hperm.map Prod.fst
    rw [hbasekeys] at hp
    exact (hp.nodup_iff).mpr (fanUnits_keys_nodup outline)
  have hlook : ∀ u ∈ fanUnits outline,
      dictGet (buildContentMap results) (fanKey u) =
        some (generate_slide_content (gen u.1 u.2.1) u.2.2) := by
    intro u hu
    have hmem : (fanKey u, generate_slide_content (gen u.1 u.2.1) u.2.2) ∈
        fanOutResults outline gen :=
      List.mem_map.mpr ⟨u, hu, rfl⟩
    have hmem2 : (fanKey u, generate_slide_content (gen u.1 u.2.1) u.2.2) ∈
        results := (hperm.mem_iff).mpr hmem
    have hget := dictGet_foldl_set_mem Prod.fst Prod.snd results
      ([] : List (String × Slide)) _ hmem2 hndres
    exact hget
  have hmain : assembleContents outline (buildContentMap results) =
      (fanUnits outline).map
        (fun u => generate_slide_content (gen u.1 u.2.1) u.2.2) := by
    unfold assembleContents
    exact filterMap_eq_map_of_some _ _ _ (fun u hu => hlook u hu)
  refine ⟨hmain, by rw [hmain, List.length_map], ?_⟩
  intro i j t e hu hgen
  have hl := hlook (i, j, t) hu
  rw [hgen] at hl
  exact hl

theorem C7_fanout_assembly_witness :
    c7results.Perm (fanOutResults [["A", "B", "C"]] c7gen) ∧
    assembleContents [["A", "B", "C"]] (buildContentMap c7results) =
      (fanUnits [["A", "B", "C"]]).map
        (fun u => generate_slide_content (c7gen u.1 u.2.1) u.2.2) ∧
    (fanUnits [["A", "B", "C"]]).map
        (fun u => generate_slide_content (c7gen u.1 u.2.1) u.2.2) =
      [generate_slide_content (c7gen 0 0) "A",
       degradedSlide "B" "boom",
       generate_slide_content (c7gen 0 2) "C"] :=
  ⟨by decide,
   (C7_fanout_assembly [["A", "B", "C"]] c7gen c7results (by decide)).1,
   by decide⟩
